import Mathlib

/-!
Verification of the HytaleAIModelGenerator core transforms.

Part 1 models `src/services/textureMapper.ts` (box-UV footprints, the shelf
packer, the atlas rescaler and the layout renderer's rectangle geometry)
together with `getTextureLayout` from the exporter, over exact numbers:
JS numbers that only ever see ring operations, `Math.ceil`, `Math.round`
and comparisons are modelled as rationals (sizes) and integers (pixel
coordinates), so every function of this part is executable.

Part 2 (further below) models the hierarchical coordinate transformer of
`src/unnamed/part_001` (`buildHytaleNodeTree`) and `src/unnamed/part_000`
(`convertHytaleToBedrock`) over the reals, since it also runs trigonometry.
-/

namespace TextureMapper

/-- Model type union `'ENTITY' | 'BLOCK' | 'GENERIC'` from types.ts. -/
inductive ModelType where
  | ENTITY
  | BLOCK
  | GENERIC
deriving DecidableEq

/-- `ModelCube` from types.ts.  `origin`, `size`, `rotation`, `pivot` are JS
number triples (modelled as rationals); `uv` is a pixel pair written by the
packer (always integral in this codebase); optional fields are `Option`. -/
structure ModelCube where
  origin : ℚ × ℚ × ℚ
  size : ℚ × ℚ × ℚ
  rotation : Option (ℚ × ℚ × ℚ)
  pivot : Option (ℚ × ℚ × ℚ)
  uv : Option (ℤ × ℤ)
  color : Option String
  textureOffset : Option (ℤ × ℤ)
deriving DecidableEq

/-- `ModelAttachment` from types.ts. -/
structure ModelAttachment where
  name : String
  position : ℚ × ℚ × ℚ
deriving DecidableEq

/-- `ModelBone` from types.ts. -/
structure ModelBone where
  name : String
  parent : Option String
  pivot : ℚ × ℚ × ℚ
  rotation : Option (ℚ × ℚ × ℚ)
  cubes : List ModelCube
  attachments : Option (List ModelAttachment)
deriving DecidableEq

/-- `BedrockModel` from types.ts.  `texture_size` is optional at runtime
(the code guards it with `|| [MIN_TEXTURE_SIZE, MIN_TEXTURE_SIZE]`). -/
structure BedrockData where
  format_version : String
  identifier : String
  texture_size : Option (ℤ × ℤ)
  bones : List ModelBone
deriving DecidableEq

/-- `MinecraftModel` from types.ts, restricted to the fields the texture
transforms read or write; the remaining fields (animations, java block data,
source blob info) are deep-cloned verbatim and never touched by
`packUVs`/`scaleModelUVs`. -/
structure MinecraftModel where
  type : ModelType
  loader : String
  identifier : String
  bedrockData : Option BedrockData
deriving DecidableEq

/-- `const PADDING = 2` (textureMapper.ts line 4). -/
def PADDING : ℤ := 2

/-- `const MIN_TEXTURE_SIZE = 64` (textureMapper.ts line 5). -/
def MIN_TEXTURE_SIZE : ℕ := 64

/-- Density strings `'16x' | '32x' | '64x'`. -/
inductive Density where
  | d16x
  | d32x
  | d64x
deriving DecidableEq

/-- `let densityScale = 1; if ('32x') 2; if ('64x') 4` (packUVs lines 34-36). -/
def densityScaleOf : Density → ℤ
  | .d16x => 1
  | .d32x => 2
  | .d64x => 4

/-- Result record of `getBoxUVSize` (`{ w, h }`). -/
structure UVSize where
  w : ℤ
  h : ℤ
deriving DecidableEq

/-- `getBoxUVSize` (textureMapper.ts lines 18-29): the box-UV footprint of a
cube at a given density scale. -/
def getBoxUVSize (cube : ModelCube) (densityScale : ℤ) : UVSize :=
  let w := cube.size.1
  let h := cube.size.2.1
  let d := cube.size.2.2
  let rw := ⌈w * densityScale⌉
  let rh := ⌈h * densityScale⌉
  let rd := ⌈d * densityScale⌉
  { w := 2 * (rw + rd), h := rd + rh }

/-- `BoxPackerItem` (textureMapper.ts lines 7-12).  The string id
`"${bIdx}_${cIdx}"` is modelled directly as the index pair it encodes, and
`cubeRef` is replaced by recording the assignment keyed by id (the final
loop of `packUVs` re-applies assignments by parsing the id back). -/
structure BoxPackerItem where
  id : ℕ × ℕ
  w : ℤ
  h : ℤ
deriving DecidableEq

/-- The items contributed by one bone's cube list, starting at cube index
`cIdx` (the inner `forEach` of packUVs lines 42-50). -/
def itemsOfCubes (bIdx : ℕ) (densityScale : ℤ) :
    ℕ → List ModelCube → List BoxPackerItem
  | _, [] => []
  | cIdx, cube :: rest =>
    let sz := getBoxUVSize cube densityScale
    { id := (bIdx, cIdx), w := sz.w, h := sz.h } ::
      itemsOfCubes bIdx densityScale (cIdx + 1) rest

/-- The outer `forEach` of packUVs lines 41-51, starting at bone index
`bIdx`. -/
def itemsOfBones (densityScale : ℤ) :
    ℕ → List ModelBone → List BoxPackerItem
  | _, [] => []
  | bIdx, bone :: rest =>
    itemsOfCubes bIdx densityScale 0 bone.cubes ++
      itemsOfBones densityScale (bIdx + 1) rest

/-- Step 1 of `packUVs` (lines 41-51): collect one packer item per cube, in
bone-major order. -/
def itemsOf (bones : List ModelBone) (densityScale : ℤ) : List BoxPackerItem :=
  itemsOfBones densityScale 0 bones

/-- The initial-atlas sizing loop of `packUVs` (lines 60-63):
`while (dim * dim < totalArea * 1.5) dim *= 2`, written with an explicit
iteration budget so that it evaluates by reduction.  The budget
`⌈totalArea⌉.toNat + 2` never truncates the loop: starting from 64 the
square quadruples each iteration, so after `k` iterations it is
`4096 * 4 ^ k ≥ 1.5 * totalArea` well before the budget runs out — this is
proved below (`growDim_not_lt`), so this function equals the source's
unbounded while loop on every input. -/
def growDimGo (totalArea : ℚ) : ℕ → ℕ → ℕ
  | 0, dim => dim
  | fuel + 1, dim =>
    if ((dim : ℚ) * dim) < totalArea * 1.5 then
      growDimGo totalArea fuel (2 * dim)
    else
      dim

/-- `let dim = MIN_TEXTURE_SIZE; while (dim * dim < totalArea * 1.5)
dim *= 2` (packUVs lines 60-63). -/
def growDim (totalArea : ℚ) : ℕ :=
  growDimGo totalArea (⌈totalArea⌉.toNat + 2) MIN_TEXTURE_SIZE

/-- The mutable packing cursor of `packUVs` (lines 65-70) plus the list of
UV assignments made by the loop body (line 86, `item.cubeRef.uv = ...`),
recorded in processing order together with the item they were made for. -/
structure PackState where
  currentX : ℤ
  currentY : ℤ
  rowHeight : ℤ
  textureH : ℤ
  asg : List (BoxPackerItem × ℤ × ℤ)

/-- One iteration of the packing loop (lines 72-91). -/
def packStep (textureW : ℤ) (s : PackState) (item : BoxPackerItem) : PackState :=
  let xyr : ℤ × ℤ × ℤ :=
    if s.currentX + item.w > textureW then
      (0, s.currentY + s.rowHeight + PADDING, 0)
    else
      (s.currentX, s.currentY, s.rowHeight)
  let x := xyr.1
  let y := xyr.2.1
  let rh := xyr.2.2
  let tH := if y + item.h > s.textureH then 2 * s.textureH else s.textureH
  { currentX := x + item.w + PADDING
    currentY := y
    rowHeight := max rh item.h
    textureH := tH
    asg := s.asg ++ [(item, x, y)] }

/-- The whole packing computation of `packUVs` (lines 38-95): collect,
stable-sort by height descending, size the atlas, run the shelf loop, then
force the square (the two sequential `if`s of lines 94-95).  Returns the
assignments and the final `[textureW, textureH]`.  JS `Array.sort` with
comparator `(a, b) => b.h - a.h` is the stable sort by descending height;
insertion sort under the total reflexive relation `b.h ≤ a.h` produces
exactly that order (the unique height-sorted permutation that keeps
equal-height items in input order). -/
def sortedItems (bones : List ModelBone) (densityScale : ℤ) :
    List BoxPackerItem :=
  (itemsOf bones densityScale).insertionSort fun a b => b.h ≤ a.h

/-- Lines 57-63 of packUVs: total footprint area (computed on the
in-place-sorted array, same multiset) and the sizing loop. -/
def initialDim (bones : List ModelBone) (densityScale : ℤ) : ℕ :=
  growDim (((((sortedItems bones densityScale).map fun i => i.w * i.h).sum : ℤ) : ℚ))

/-- The state after the shelf loop of lines 65-91. -/
def packFinal (bones : List ModelBone) (densityScale : ℤ) : PackState :=
  (sortedItems bones densityScale).foldl
    (packStep (initialDim bones densityScale))
    { currentX := 0, currentY := 0, rowHeight := 0,
      textureH := initialDim bones densityScale, asg := [] }

def packCompute (bones : List ModelBone) (density : Density) :
    List (BoxPackerItem × ℤ × ℤ) × ℤ × ℤ :=
  let densityScale := densityScaleOf density
  let final := packFinal bones densityScale
  let textureW : ℤ := initialDim bones densityScale
  let textureW2 := if final.textureH > textureW then final.textureH else textureW
  let textureH2 := if textureW2 > final.textureH then textureW2 else final.textureH
  (final.asg, textureW2, textureH2)

/-- Overwrite the `uv` of each cube (from index `cIdx` in bone `bIdx`)
with its recorded assignment, if one exists. -/
def applyAsgCubes (asg : List (BoxPackerItem × ℤ × ℤ)) (bIdx : ℕ) :
    ℕ → List ModelCube → List ModelCube
  | _, [] => []
  | cIdx, cube :: rest =>
    (match asg.find? (fun r => decide (r.1.id = (bIdx, cIdx))) with
      | some r => { cube with uv := some r.2 }
      | none => cube) :: applyAsgCubes asg bIdx (cIdx + 1) rest

/-- `applyAsgCubes` over the bones from index `bIdx`. -/
def applyAsgBones (asg : List (BoxPackerItem × ℤ × ℤ)) :
    ℕ → List ModelBone → List ModelBone
  | _, [] => []
  | bIdx, bone :: rest =>
    { bone with cubes := applyAsgCubes asg bIdx 0 bone.cubes } ::
      applyAsgBones asg (bIdx + 1) rest

/-- Applying the recorded UV assignments to the bone tree: the value-level
meaning of `item.cubeRef.uv = [x, y]` (line 86) together with the re-apply
loop on the clone (lines 102-105). -/
def applyAsg (bones : List ModelBone) (asg : List (BoxPackerItem × ℤ × ℤ)) :
    List ModelBone :=
  applyAsgBones asg 0 bones

/-- `packUVs` (textureMapper.ts lines 31-108): the returned model.  The
source deep-clones the (already uv-mutated) input, sets `texture_size` and
re-applies every assignment, so the returned value is the input with the
assigned uv fields and the new texture size. -/
def packUVs (model : MinecraftModel) (density : Density) : MinecraftModel :=
  match model.type, model.bedrockData with
  | ModelType.ENTITY, some bd =>
    let r := packCompute bd.bones density
    { model with
      bedrockData := some
        { bd with
          texture_size := some (r.2.1, r.2.2)
          bones := applyAsg bd.bones r.1 } }
  | _, _ => model

/-- The state of the INPUT model object after `packUVs` returns: the loop at
line 86 wrote `item.cubeRef.uv = [currentX, currentY]` on the input's own
cube objects before the clone was taken, while the input's `texture_size`
was never touched. -/
def packUVsInputAfter (model : MinecraftModel) (density : Density) :
    MinecraftModel :=
  match model.type, model.bedrockData with
  | ModelType.ENTITY, some bd =>
    let r := packCompute bd.bones density
    { model with bedrockData := some { bd with bones := applyAsg bd.bones r.1 } }
  | _, _ => model

/-- Per-axis rescale `Math.round(uv * (newSize / oldSize))` used by
`scaleModelUVs` (lines 119-131).  Lean's `round` on ℚ is `⌊x + 1/2⌋`, which
is exactly JS `Math.round` (half rounds toward +∞). -/
def rescaleAxis (u oldS newS : ℤ) : ℤ :=
  round ((u : ℚ) * ((newS : ℚ) / (oldS : ℚ)))

/-- `scaleModelUVs` (textureMapper.ts lines 111-137). -/
def scaleModelUVs (model : MinecraftModel) (newWidth newHeight : ℤ) :
    MinecraftModel :=
  match model.bedrockData with
  | none => model
  | some bd =>
    let old := bd.texture_size.getD ((MIN_TEXTURE_SIZE : ℤ), (MIN_TEXTURE_SIZE : ℤ))
    if old.1 = newWidth ∧ old.2 = newHeight then model
    else
      { model with
        bedrockData := some
          { bd with
            texture_size := some (newWidth, newHeight)
            bones := bd.bones.map fun bone =>
              { bone with
                cubes := bone.cubes.map fun cube =>
                  match cube.uv with
                  | some p =>
                    { cube with
                      uv := some (rescaleAxis p.1 old.1 newWidth,
                                  rescaleAxis p.2 old.2 newHeight) }
                  | none => cube } } }

/-- One `drawRect` call of `drawTextureLayout` (textureMapper.ts lines
174-205): face label and rectangle geometry. -/
structure FaceRect where
  face : String
  x : ℤ
  y : ℤ
  w : ℤ
  h : ℤ
deriving DecidableEq

/-- The six face rectangles `drawTextureLayout` paints for one cube (lines
160-205), in source order; a cube without uv is skipped (line 161). -/
def drawCubeRects (cube : ModelCube) (scale : ℤ) : List FaceRect :=
  match cube.uv with
  | none => []
  | some p =>
    let u := p.1
    let v := p.2
    let w_px := ⌈cube.size.1 * scale⌉
    let h_px := ⌈cube.size.2.1 * scale⌉
    let d_px := ⌈cube.size.2.2 * scale⌉
    [ { face := "T", x := u + d_px, y := v, w := w_px, h := d_px }
    , { face := "B", x := u + d_px + w_px, y := v, w := w_px, h := d_px }
    , { face := "R", x := u, y := v + d_px, w := d_px, h := h_px }
    , { face := "F", x := u + d_px, y := v + d_px, w := w_px, h := h_px }
    , { face := "L", x := u + d_px + w_px, y := v + d_px, w := d_px, h := h_px }
    , { face := "Bk", x := u + d_px + w_px + d_px, y := v + d_px, w := w_px, h := h_px } ]

/-- The pure geometry of `drawTextureLayout` (lines 140-209): every rectangle
painted over all bones and cubes at the given density (`'16x' | '32x' |
'64x'` maps to scale 1 | 2 | 4 at lines 155-157, the same mapping as
`packUVs`). -/
def drawTextureLayoutRects (model : MinecraftModel) (density : Density) :
    List FaceRect :=
  match model.type, model.bedrockData with
  | ModelType.ENTITY, some bd =>
    bd.bones.flatMap fun bone =>
      bone.cubes.flatMap fun cube => drawCubeRects cube (densityScaleOf density)
  | _, _ => []

/-- One `{offset, mirror, angle}` record of the export `textureLayout`. -/
structure FaceLayoutRec where
  offsetX : ℤ
  offsetY : ℤ
  mirrorX : Bool
  mirrorY : Bool
  angle : ℤ
deriving DecidableEq

/-- The six-face `textureLayout` (same shape as in part_001). -/
structure TextureLayoutRecs where
  front : FaceLayoutRec
  back : FaceLayoutRec
  left : FaceLayoutRec
  right : FaceLayoutRec
  top : FaceLayoutRec
  bottom : FaceLayoutRec
deriving DecidableEq

/-- `getTextureLayout` (src/unnamed/part_001 lines 35-53), over the exact
texture-world cube type.  Note the source takes `textureWidth`/
`textureHeight` but never uses them, and applies `Math.ceil` to the RAW
cube size: it has no density parameter. -/
def getTextureLayout (cube : ModelCube) (textureWidth textureHeight : ℤ) :
    TextureLayoutRecs :=
  let uv := cube.uv.getD (0, 0)
  let u := uv.1
  let v := uv.2
  let rw := ⌈cube.size.1⌉
  let rd := ⌈cube.size.2.2⌉
  let _ := textureWidth
  let _ := textureHeight
  { front := { offsetX := u + rd, offsetY := v + rd, mirrorX := false, mirrorY := false, angle := 0 }
  , back := { offsetX := u + rd + rw + rd, offsetY := v + rd, mirrorX := false, mirrorY := false, angle := 0 }
  , left := { offsetX := u + rd + rw, offsetY := v + rd, mirrorX := false, mirrorY := false, angle := 0 }
  , right := { offsetX := u, offsetY := v + rd, mirrorX := false, mirrorY := false, angle := 0 }
  , top := { offsetX := u + rd, offsetY := v, mirrorX := false, mirrorY := false, angle := 0 }
  , bottom := { offsetX := u + rd + rw, offsetY := v, mirrorX := false, mirrorY := false, angle := 0 } }

end TextureMapper

namespace HyConv

/-!
Part 2: the hierarchical coordinate transformer.  JS numbers are modelled
as reals here because the rotation conversion runs trigonometry
(`THREE.Quaternion.setFromEuler` / `THREE.Euler.setFromQuaternion`); all
other arithmetic (pivot differences, cube centers) is exact in ℝ.
-/

noncomputable section

/-- A JS `{x, y, z}` number triple. -/
@[ext]
structure Vec3 where
  x : ℝ
  y : ℝ
  z : ℝ

/-- A JS `{x, y, z, w}` quaternion. -/
@[ext]
structure Quat where
  x : ℝ
  y : ℝ
  z : ℝ
  w : ℝ

/-- `ModelAttachment` from types.ts. -/
structure ModelAttachment where
  name : String
  position : Vec3

/-- A `bone.attachments` entry: the exporter accepts both a plain string
and a `{name, position}` object (part_001 lines 147-152). -/
inductive AttachmentEntry where
  | str : String → AttachmentEntry
  | obj : ModelAttachment → AttachmentEntry

/-- `ModelCube` from types.ts (converter view; `textureOffset` is never
read by the converter and is omitted). -/
structure ModelCube where
  origin : Vec3
  size : Vec3
  rotation : Option Vec3
  pivot : Option Vec3
  uv : Option (ℝ × ℝ)
  color : Option String

/-- `ModelBone` from types.ts (converter view). -/
structure ModelBone where
  name : String
  parent : Option String
  pivot : Vec3
  rotation : Option Vec3
  cubes : List ModelCube
  attachments : Option (List AttachmentEntry)

/-- `shape.type` values produced and consumed by the converter:
`"none"` or `"box"`. -/
inductive ShapeType where
  | none
  | box
deriving DecidableEq

/-- One face record of the export `textureLayout`:
`{offset: {x, y}, mirror: {x, y}, angle}`. -/
structure FaceLayout where
  offsetX : ℝ
  offsetY : ℝ
  mirrorX : Bool
  mirrorY : Bool
  angle : ℝ

/-- The six-face `textureLayout` object (part_001 lines 45-52). -/
structure TextureLayout where
  front : FaceLayout
  back : FaceLayout
  left : FaceLayout
  right : FaceLayout
  top : FaceLayout
  bottom : FaceLayout

/-- `shape.settings`: `{isPiece}` on marker nodes, `{size}` on box nodes. -/
structure ShapeSettings where
  isPiece : Option Bool
  size : Option Vec3

/-- The `shape` descriptor of a Hytale node.  The cosmetic constants the
exporter also writes (`stretch`, `visible`, `doubleSided`, `shadingMode`,
`unwrapMode`) are never read back by the importer and are omitted; an
empty `textureLayout: {}` is `none`. -/
structure Shape where
  type : ShapeType
  offset : Vec3
  settings : ShapeSettings
  textureLayout : Option TextureLayout

/-- `HytaleNode` (part_001 lines 23-30).  `id` is the numeric value of the
`generateId()` counter string. -/
structure HytaleNode where
  id : ℕ
  name : String
  children : List HytaleNode
  position : Vec3
  orientation : Quat
  shape : Shape

/-- `degToRad` (part_001 line 12). -/
def degToRad (deg : ℝ) : ℝ := deg * (Real.pi / 180)

/-- `THREE.MathUtils.radToDeg`. -/
def radToDeg (rad : ℝ) : ℝ := rad * (180 / Real.pi)

/-- `eulerToQuaternion` (part_001 lines 14-19):
`THREE.Quaternion.setFromEuler` on `Euler(degToRad x, degToRad y,
degToRad z, 'ZYX')`, written out with THREE's half-angle formulas for the
`'ZYX'` case. -/
def eulerToQuaternion (x y z : ℝ) : Quat :=
  let c1 := Real.cos (degToRad x / 2)
  let c2 := Real.cos (degToRad y / 2)
  let c3 := Real.cos (degToRad z / 2)
  let s1 := Real.sin (degToRad x / 2)
  let s2 := Real.sin (degToRad y / 2)
  let s3 := Real.sin (degToRad z / 2)
  { x := s1 * c2 * c3 - c1 * s2 * s3
    y := c1 * s2 * c3 + s1 * c2 * s3
    z := c1 * c2 * s3 - s1 * s2 * c3
    w := c1 * c2 * c3 + s1 * s2 * s3 }

/-- JS `Math.atan2`. -/
def atan2 (y x : ℝ) : ℝ :=
  if 0 < x then Real.arctan (y / x)
  else if x < 0 then
    (if 0 ≤ y then Real.arctan (y / x) + Real.pi else Real.arctan (y / x) - Real.pi)
  else
    (if 0 < y then Real.pi / 2 else if y < 0 then -(Real.pi / 2) else 0)

/-- THREE `MathUtils.clamp`. -/
def clampR (v lo hi : ℝ) : ℝ := max lo (min hi v)

/-- `THREE.Euler.setFromQuaternion(q, 'ZYX')` (part_000 lines 62 and 113):
THREE builds the rotation matrix of the quaternion
(`Matrix4.makeRotationFromQuaternion`, entries written out below) and
extracts `'ZYX'` angles from it (`Euler.setFromRotationMatrix`), with the
gimbal-lock guard `|m31| < 0.9999999`.  Result in radians. -/
def quaternionToEulerZYX (q : Quat) : Vec3 :=
  let m11 := 1 - 2 * (q.y * q.y + q.z * q.z)
  let m12 := 2 * (q.x * q.y - q.w * q.z)
  let m21 := 2 * (q.x * q.y + q.w * q.z)
  let m22 := 1 - 2 * (q.x * q.x + q.z * q.z)
  let m31 := 2 * (q.x * q.z - q.w * q.y)
  let m32 := 2 * (q.y * q.z + q.w * q.x)
  let m33 := 1 - 2 * (q.x * q.x + q.y * q.y)
  let yv := Real.arcsin (-(clampR m31 (-1) 1))
  if |m31| < 0.9999999 then
    { x := atan2 m32 m33, y := yv, z := atan2 m21 m11 }
  else
    { x := 0, y := yv, z := atan2 (-m12) m22 }

/-- The quaternion-to-Euler-degrees conversion applied by the importer to
every node orientation (part_000 lines 56-67 and 107-118). -/
def quaternionToEulerDeg (q : Quat) : Vec3 :=
  let e := quaternionToEulerZYX q
  { x := radToDeg e.x, y := radToDeg e.y, z := radToDeg e.z }

/-- `getTextureLayout` (part_001 lines 35-53), converter view.  The
`textureWidth`/`textureHeight` parameters are accepted and ignored exactly
as in the source, and `Math.ceil` is applied to the raw cube size. -/
def getTextureLayout (cube : ModelCube) (textureWidth textureHeight : ℝ) :
    TextureLayout :=
  let uv := cube.uv.getD (0, 0)
  let u := uv.1
  let v := uv.2
  let rw : ℤ := ⌈cube.size.x⌉
  let rd : ℤ := ⌈cube.size.z⌉
  let _ := textureWidth
  let _ := textureHeight
  { front := { offsetX := u + rd, offsetY := v + rd, mirrorX := false, mirrorY := false, angle := 0 }
  , back := { offsetX := u + rd + rw + rd, offsetY := v + rd, mirrorX := false, mirrorY := false, angle := 0 }
  , left := { offsetX := u + rd + rw, offsetY := v + rd, mirrorX := false, mirrorY := false, angle := 0 }
  , right := { offsetX := u, offsetY := v + rd, mirrorX := false, mirrorY := false, angle := 0 }
  , top := { offsetX := u + rd, offsetY := v, mirrorX := false, mirrorY := false, angle := 0 }
  , bottom := { offsetX := u + rd + rw, offsetY := v, mirrorX := false, mirrorY := false, angle := 0 } }

/-- JS truthiness of an optional string: `undefined` and `""` are falsy. -/
def strTruthy : Option String → Bool
  | some s => s ≠ ""
  | none => false

/-- The sibling filter of `buildHytaleNodeTree` (part_001 lines 64-66):
`bones.filter(b => parentId ? b.parent === parentId : !b.parent)`. -/
def belongsTo (parentId : Option String) (b : ModelBone) : Bool :=
  if strTruthy parentId then decide (b.parent = parentId)
  else !(strTruthy b.parent)

/-- Cube child nodes of a bone (part_001 lines 100-139), with the
`generateId` counter threaded through; `idx` tracks `forEach`'s index. -/
def buildCubeNodes (boneName : String) (p : Vec3) (textureSize : ℝ × ℝ) :
    List ModelCube → ℕ → ℕ → List HytaleNode × ℕ
  | [], _, ctr => ([], ctr)
  | cube :: rest, idx, ctr =>
    let nid := ctr + 1
    let center : Vec3 :=
      ⟨cube.origin.x + cube.size.x / 2, cube.origin.y + cube.size.y / 2,
        cube.origin.z + cube.size.z / 2⟩
    let off : Vec3 := ⟨center.x - p.x, center.y - p.y, center.z - p.z⟩
    let crot := cube.rotation.getD ⟨0, 0, 0⟩
    let node : HytaleNode :=
      { id := nid
        name := boneName ++ "_shape_" ++ toString idx
        children := []
        position := off
        orientation := eulerToQuaternion crot.x crot.y crot.z
        shape :=
          { type := ShapeType.box
            offset := ⟨0, 0, 0⟩
            settings := { isPiece := none, size := some cube.size }
            textureLayout := some (getTextureLayout cube textureSize.1 textureSize.2) } }
    let r := buildCubeNodes boneName p textureSize rest (idx + 1) nid
    (node :: r.1, r.2)

/-- Attachment child nodes of a bone (part_001 lines 142-174). -/
def buildAttNodes : List AttachmentEntry → ℕ → List HytaleNode × ℕ
  | [], ctr => ([], ctr)
  | att :: rest, ctr =>
    let nid := ctr + 1
    let attName :=
      match att with
      | .str s => s
      | .obj a => if a.name = "" then "attachment" else a.name
    let attPos : Vec3 :=
      match att with
      | .str _ => ⟨0, 0, 0⟩
      | .obj a => a.position
    let node : HytaleNode :=
      { id := nid
        name := attName
        children := []
        position := attPos
        orientation := ⟨0, 0, 0, 1⟩
        shape :=
          { type := ShapeType.none
            offset := ⟨0, 0, 0⟩
            settings := { isPiece := some true, size := none }
            textureLayout := none } }
    let r := buildAttNodes rest nid
    (node :: r.1, r.2)

mutual

/-- `buildHytaleNodeTree` (part_001 lines 55-184).  The source recursion
has no explicit bound; on any forest reachable from the top-level call the
depth is at most the number of bones, so a fuel of `bones.length + 1`
(supplied at the entry point below) reproduces it exactly; bones on a
parent cycle are unreachable from the roots and are never visited by the
source either. -/
def buildHytaleNodeTree (bones : List ModelBone) (fuel : ℕ)
    (parentId : Option String) (parentPivot : Vec3) (textureSize : ℝ × ℝ)
    (ctr : ℕ) : List HytaleNode × ℕ :=
  if h : fuel = 0 then ([], ctr)
  else
    buildBoneList bones (fuel - 1) (bones.filter (belongsTo parentId))
      parentPivot textureSize ctr
termination_by (fuel, 0)

/-- The `for (const bone of currentBones)` body of `buildHytaleNodeTree`
(part_001 lines 68-181). -/
def buildBoneList (bones : List ModelBone) (fuel : ℕ)
    (current : List ModelBone) (parentPivot : Vec3) (textureSize : ℝ × ℝ)
    (ctr : ℕ) : List HytaleNode × ℕ :=
  match current with
  | [] => ([], ctr)
  | bone :: rest =>
    let boneId := ctr + 1
    let p := bone.pivot
    let rel : Vec3 :=
      ⟨p.x - parentPivot.x, p.y - parentPivot.y, p.z - parentPivot.z⟩
    let rot := bone.rotation.getD ⟨0, 0, 0⟩
    let cubesR := buildCubeNodes bone.name p textureSize bone.cubes 0 boneId
    let attsR := buildAttNodes (bone.attachments.getD []) cubesR.2
    let childrenR :=
      buildHytaleNodeTree bones fuel (some bone.name) p textureSize attsR.2
    let boneNode : HytaleNode :=
      { id := boneId
        name := bone.name
        children := cubesR.1 ++ attsR.1 ++ childrenR.1
        position := rel
        orientation := eulerToQuaternion rot.x rot.y rot.z
        shape :=
          { type := ShapeType.none
            offset := ⟨0, 0, 0⟩
            settings := { isPiece := some false, size := none }
            textureLayout := none } }
    let restR := buildBoneList bones fuel rest parentPivot textureSize childrenR.2
    (boneNode :: restR.1, restR.2)
termination_by (fuel, current.length + 1)

end

/-- The export entry point (part_001 lines 210-222): `nodeIdCounter = 0`
then `buildHytaleNodeTree(model.bedrockData.bones, undefined, [0,0,0],
textureSize)`.  The fuel `bones.length + 1` covers every depth the source
recursion can reach (see `buildHytaleNodeTree`). -/
def exportNodes (bones : List ModelBone) (textureSize : ℝ × ℝ) :
    List HytaleNode :=
  (buildHytaleNodeTree bones (bones.length + 1) none ⟨0, 0, 0⟩ textureSize 0).1

/-- `getBone` (part_000 line 18): `bones.find(b => b.name === name)`. -/
def getBone (bones : List ModelBone) (name : String) : Option ModelBone :=
  bones.find? fun b => decide (b.name = name)

/-- `parentBone.cubes.push(cube)` (part_000 line 81): append a cube to the
first bone with the given name. -/
def pushCube (bname : String) (cube : ModelCube) :
    List ModelBone → List ModelBone
  | [] => []
  | b :: rest =>
    if b.name = bname then { b with cubes := b.cubes ++ [cube] } :: rest
    else b :: pushCube bname cube rest

/-- `parentBone.attachments.push(...)` (part_000 lines 97-101), creating
the array if absent. -/
def pushAtt (bname : String) (att : ModelAttachment) :
    List ModelBone → List ModelBone
  | [] => []
  | b :: rest =>
    if b.name = bname then
      { b with attachments := some (b.attachments.getD [] ++ [.obj att]) } :: rest
    else b :: pushAtt bname att rest

/-- The cube record built by the importer for a box node attached to an
existing parent bone (part_000 lines 38-88). -/
def importCube (node : HytaleNode) (currentPivot : Vec3) : ModelCube :=
  let size := node.shape.settings.size.getD ⟨1, 1, 1⟩
  let offset := node.shape.offset
  let origin : Vec3 :=
    ⟨currentPivot.x + offset.x - size.x / 2,
      currentPivot.y + offset.y - size.y / 2,
      currentPivot.z + offset.z - size.z / 2⟩
  let rot := quaternionToEulerDeg node.orientation
  let uv : Option (ℝ × ℝ) :=
    match node.shape.textureLayout with
    | some tl => some (tl.right.offsetX, tl.top.offsetY)
    | none => none
  { origin := origin
    size := size
    rotation := some rot
    pivot := some currentPivot
    uv := uv
    color := some "#FFFFFF" }

mutual

/-- The `traverse` closure of `convertHytaleToBedrock` (part_000 lines
20-145), with the mutable `bones` array passed as explicit state.  Note
the source control flow: a box or attachment node with a truthy parent
name is pushed onto the parent bone and recursion stops; if the parent
bone is *not* found the code falls through and the node becomes a bone;
a box node with no (or falsy) parent name becomes a bone that carries
itself as a single cube (lines 130-137). -/
def traverse (node : HytaleNode) (parentName : Option String)
    (parentPivot : Vec3) (bones : List ModelBone) : List ModelBone :=
  let relPos := node.position
  let currentPivot : Vec3 :=
    ⟨parentPivot.x + relPos.x, parentPivot.y + relPos.y, parentPivot.z + relPos.z⟩
  let isGeometry := node.shape.type = ShapeType.box
  let isAttachment := node.shape.settings.isPiece = some true
  let pname := parentName.getD ""
  if isGeometry ∧ strTruthy parentName ∧ (getBone bones pname).isSome then
    pushCube pname (importCube node currentPivot) bones
  else if isAttachment ∧ strTruthy parentName ∧ (getBone bones pname).isSome then
    pushAtt pname { name := node.name, position := relPos } bones
  else
    let rot := quaternionToEulerDeg node.orientation
    let selfCubes : List ModelCube :=
      if isGeometry ∧ ¬ strTruthy parentName then
        let size := node.shape.settings.size.getD ⟨1, 1, 1⟩
        [ { origin :=
              ⟨currentPivot.x - size.x / 2, currentPivot.y - size.y / 2,
                currentPivot.z - size.z / 2⟩
            size := size
            rotation := none
            pivot := none
            uv := none
            color := some "#FFFFFF" } ]
      else []
    let newBone : ModelBone :=
      { name := node.name
        parent := parentName
        pivot := currentPivot
        rotation := some rot
        cubes := selfCubes
        attachments := some [] }
    traverseList node.children (some node.name) currentPivot (bones ++ [newBone])
termination_by sizeOf node
decreasing_by
  cases node
  simp
  omega

/-- `node.children.forEach(child => traverse(child, node.name,
currentPivot))` (part_000 line 143), also used for the top-level
`hytaleData.nodes.forEach` (line 148). -/
def traverseList (nodes : List HytaleNode) (parentName : Option String)
    (parentPivot : Vec3) (bones : List ModelBone) : List ModelBone :=
  match nodes with
  | [] => bones
  | n :: rest =>
    traverseList rest parentName parentPivot (traverse n parentName parentPivot bones)
termination_by sizeOf nodes

end

/-- The bone list produced by `convertHytaleToBedrock` (part_000 lines
14-162) from the node list of a `.blockymodel`; the surrounding model
record (identifier sanitization, `format_version: "1.12.0"`,
`texture_size: [64, 64]`) carries no geometry and is left out. -/
def convertHytaleToBedrock (nodes : List HytaleNode) : List ModelBone :=
  traverseList nodes none ⟨0, 0, 0⟩ []

/-- Export followed by import: the round trip of claim C1. -/
def roundTrip (bones : List ModelBone) (textureSize : ℝ × ℝ) :
    List ModelBone :=
  convertHytaleToBedrock (exportNodes bones textureSize)

end

/-- The bone names visited by the export recursion from a given parent id,
in DFS order (one name per visit; fuel as in `buildHytaleNodeTree`).
Structural in the fuel, so it evaluates on concrete models. -/
def collectNames (bones : List ModelBone) : ℕ → Option String → List String
  | 0, _ => []
  | fuel + 1, pid =>
    (bones.filter (belongsTo pid)).flatMap fun b =>
      b.name :: collectNames bones fuel (some b.name)

/-- Well-formedness of the bone forest, as assumed by claim C1: unique
nonempty bone names, the export walk visits no name twice, and every bone
is reachable from the roots (a bone with a dangling or cyclic parent chain
would be silently skipped by the walk — that is claim C10's subject). -/
def WellFormedForest (bones : List ModelBone) : Prop :=
  (bones.map fun b => b.name).Nodup ∧
  "" ∉ (bones.map fun b => b.name) ∧
  (collectNames bones (bones.length + 1) none).Nodup ∧
  ∀ b ∈ bones, b.name ∈ collectNames bones (bones.length + 1) none

instance (bones : List ModelBone) : Decidable (WellFormedForest bones) := by
  unfold WellFormedForest
  infer_instance

/-- Principal-range Euler angles away from the importer's gimbal-lock
guard: `x, z ∈ (-180°, 180°]`, `y ∈ (-90°, 90°)` and
`|sin y| < 0.9999999` (the guard constant of
`Euler.setFromRotationMatrix`). -/
def RotOK (v : Vec3) : Prop :=
  (-180 < v.x ∧ v.x ≤ 180) ∧ (-90 < v.y ∧ v.y < 90) ∧
  (-180 < v.z ∧ v.z ≤ 180) ∧
  |Real.sin (degToRad v.y)| < 0.9999999

/-- `RotOK` for a bone's (optional, default zero) rotation. -/
def boneRotOK (b : ModelBone) : Prop := RotOK (b.rotation.getD ⟨0, 0, 0⟩)

noncomputable section

/-- Euler degrees through the exporter's quaternion and back through the
importer's extraction: the rotation round trip of claim C1. -/
def rtDeg (v : Vec3) : Vec3 :=
  quaternionToEulerDeg (eulerToQuaternion v.x v.y v.z)

/-- What the importer rebuilds from an exported cube node of a bone with
pivot `p`: origin and size come back exactly, rotation goes through the
Euler/quaternion round trip, and the importer also fills `pivot` (the cube
center), `uv` (recovered from the texture layout) and a white color. -/
def reconCube (c : ModelCube) : ModelCube :=
  { origin := c.origin
    size := c.size
    rotation := some (rtDeg (c.rotation.getD ⟨0, 0, 0⟩))
    pivot := some ⟨c.origin.x + c.size.x / 2, c.origin.y + c.size.y / 2,
      c.origin.z + c.size.z / 2⟩
    uv := some (c.uv.getD (0, 0))
    color := some "#FFFFFF" }

/-- What the importer rebuilds from an exported attachment node. -/
def reconAtt : AttachmentEntry → AttachmentEntry
  | .str s => .obj { name := s, position := ⟨0, 0, 0⟩ }
  | .obj a =>
    .obj { name := if a.name = "" then "attachment" else a.name
           position := a.position }

/-- What the importer rebuilds from an exported bone node whose import
parent node name is `pName`. -/
def reconBone (b : ModelBone) (pName : Option String) : ModelBone :=
  { name := b.name
    parent := pName
    pivot := b.pivot
    rotation := some (rtDeg (b.rotation.getD ⟨0, 0, 0⟩))
    cubes := b.cubes.map reconCube
    attachments := some ((b.attachments.getD []).map reconAtt) }

/-- The bone list the importer rebuilds from the exported subtree rooted
at parent id `pid` (DFS order, same fuel discipline as the export). -/
def expectedTree (bones : List ModelBone) : ℕ → Option String → List ModelBone
  | 0, _ => []
  | fuel + 1, pid =>
    (bones.filter (belongsTo pid)).flatMap fun b =>
      reconBone b pid :: expectedTree bones fuel (some b.name)

end

namespace Ex

/-- A bone rotated 180 degrees about Y: the C1 counterexample input. -/
def boneY180 : ModelBone :=
  { name := "root", parent := none, pivot := ⟨0, 0, 0⟩,
    rotation := some ⟨0, 180, 0⟩, cubes := [], attachments := none }

def bonesY180 : List ModelBone := [boneY180]

/-- The witness chain root → pelvis → head with a cube on the head (the
spec's §8 three-bone scenario). -/
def cubeHead : ModelCube :=
  { origin := ⟨-4, 20, -4⟩, size := ⟨8, 8, 8⟩, rotation := none,
    pivot := none, uv := none, color := none }

def boneRootC : ModelBone :=
  { name := "root", parent := none, pivot := ⟨0, 0, 0⟩, rotation := none,
    cubes := [], attachments := none }

def bonePelvis : ModelBone :=
  { name := "pelvis", parent := some "root", pivot := ⟨0, 12, 0⟩,
    rotation := some ⟨30, 0, 0⟩, cubes := [], attachments := none }

def boneHead : ModelBone :=
  { name := "head", parent := some "pelvis", pivot := ⟨0, 24, 0⟩,
    rotation := none, cubes := [cubeHead], attachments := none }

def bonesChain : List ModelBone := [boneRootC, bonePelvis, boneHead]

/-- A bone whose parent name matches no bone: the C10 input. -/
def boneOrphan : ModelBone :=
  { name := "orphan", parent := some "ghost", pivot := ⟨0, 12, 0⟩,
    rotation := none, cubes := [], attachments := none }

def bonesOrphan : List ModelBone := [boneRootC, boneOrphan]

end Ex

end HyConv

namespace TextureMapper

/-- The cube at bone index `b`, cube index `c` of a model. -/
def cubeAt (m : MinecraftModel) (b c : ℕ) : Option ModelCube :=
  match m.bedrockData with
  | some bd =>
    match bd.bones[b]? with
    | some bone => bone.cubes[c]?
    | none => none
  | none => none

/-- Disjointness of the half-open rectangles `[x, x+w) × [y, y+h)`:
separation along some axis. -/
def rectsDisjoint (x1 y1 w1 h1 x2 y2 w2 h2 : ℤ) : Prop :=
  x1 + w1 ≤ x2 ∨ x2 + w2 ≤ x1 ∨ y1 + h1 ≤ y2 ∨ y2 + h2 ≤ y1

/-- Disjointness of two packed assignments' footprints, each extended by
the padding on its right and bottom edges. -/
def padDisj (r₁ r₂ : BoxPackerItem × ℤ × ℤ) : Prop :=
  rectsDisjoint r₁.2.1 r₁.2.2 (r₁.1.w + PADDING) (r₁.1.h + PADDING)
    r₂.2.1 r₂.2.2 (r₂.1.w + PADDING) (r₂.1.h + PADDING)

/-- An assignment sits in the currently open shelf row. -/
def InRow (s : PackState) (r : BoxPackerItem × ℤ × ℤ) : Prop :=
  r.2.2 = s.currentY ∧ r.2.1 + r.1.w + PADDING ≤ s.currentX ∧
  r.1.h ≤ s.rowHeight

/-- An assignment's padded footprint lies strictly above cursor row `cy`. -/
def Finished (cy : ℤ) (r : BoxPackerItem × ℤ × ℤ) : Prop :=
  r.2.2 + r.1.h + PADDING ≤ cy

/-- The shelf-packing loop invariant behind claim C4: cursors are
nonnegative, every assignment so far is either in a closed row above the
cursor or in the open row left of the cursor, and all padded footprints
are pairwise disjoint. -/
def PackInv (s : PackState) : Prop :=
  0 ≤ s.currentX ∧ 0 ≤ s.currentY ∧ 0 ≤ s.rowHeight ∧
  (∀ r ∈ s.asg, Finished s.currentY r ∨ InRow s r) ∧
  s.asg.Pairwise padDisj

/-- The containment invariant behind the amended claim C5: when every
footprint is small enough, every assignment lies inside
`[0, textureW) × [0, textureH)` of the running atlas. -/
def PackBounds (textureW : ℤ) (s : PackState) : Prop :=
  64 ≤ s.textureH ∧ s.currentY + s.rowHeight ≤ s.textureH ∧
  ∀ r ∈ s.asg, 0 ≤ r.2.1 ∧ 0 ≤ r.2.2 ∧ r.2.1 + r.1.w ≤ textureW ∧
    r.2.2 + r.1.h ≤ s.textureH

/-- A cube with its packer-written fields blanked: used to state that the
transforms touch nothing but `uv` (and the model's `texture_size`). -/
def stripCubeUV (c : ModelCube) : ModelCube := { c with uv := none }

/-- A model with every cube's `uv` and the `texture_size` blanked. -/
def stripUVModel (m : MinecraftModel) : MinecraftModel :=
  { m with
    bedrockData := m.bedrockData.map fun bd =>
      { bd with
        texture_size := none
        bones := bd.bones.map fun bone =>
          { bone with cubes := bone.cubes.map stripCubeUV } } }

namespace Ex

/-- A plain cube of the given size at the origin. -/
def cube (w h d : ℚ) : ModelCube :=
  { origin := (0, 0, 0), size := (w, h, d), rotation := none, pivot := none,
    uv := none, color := none, textureOffset := none }

/-- The bedrock data of a single-bone entity model holding the given cubes. -/
def bd1 (cs : List ModelCube) : BedrockData :=
  { format_version := "1.12.0", identifier := "m",
    texture_size := some (64, 64),
    bones := [{ name := "root", parent := none, pivot := (0, 0, 0),
                rotation := none, cubes := cs, attachments := none }] }

/-- A single-bone entity model holding the given cubes. -/
def model1 (cs : List ModelCube) : MinecraftModel :=
  { type := .ENTITY, loader := "HYTALE", identifier := "m",
    bedrockData := some (bd1 cs) }

def cube8 : ModelCube := cube 8 8 8

/-- `cube8` with an assigned UV origin. -/
def cube8uv : ModelCube := { cube8 with uv := some (0, 0) }

def model8 : MinecraftModel := model1 [cube8]

/-- Single cube `[1, 200, 1]`: its box-UV footprint is 4 × 201, taller
than even a doubled 64-pixel atlas. -/
def modelTall : MinecraftModel := model1 [cube 1 200 1]

/-- Single degenerate cube of size `[0, 0, 0]`. -/
def modelZero : MinecraftModel := model1 [cube 0 0 0]

end Ex

end TextureMapper

/-!
Theorems.  First the loop-budget justification for `growDim`, then the
claims in order C2, C3, C8, the packer claims C4-C7 and C9, and finally
the coordinate-transformer claims C1 and C10.
-/

namespace TextureMapper

theorem growDimGo_stop (a : ℚ) (fuel dim : ℕ)
    (h : ¬ ((dim : ℚ) * dim < a * 1.5)) : growDimGo a fuel dim = dim := by
  cases fuel <;> simp [growDimGo, h]

theorem le_growDimGo (a : ℚ) (fuel : ℕ) : ∀ dim : ℕ, dim ≤ growDimGo a fuel dim := by
  induction fuel with
  | zero => intro dim; simp [growDimGo]
  | succ n ih =>
    intro dim
    by_cases h : ((dim : ℚ) * dim < a * 1.5)
    · calc dim ≤ 2 * dim := by omega
        _ ≤ growDimGo a n (2 * dim) := ih (2 * dim)
        _ = growDimGo a (n + 1) dim := by simp [growDimGo, h]
    · simp [growDimGo, h]

/-- The atlas side starts at `MIN_TEXTURE_SIZE` and only grows. -/
theorem growDim_ge (a : ℚ) : MIN_TEXTURE_SIZE ≤ growDim a :=
  le_growDimGo a _ MIN_TEXTURE_SIZE

theorem growDimGo_adequate (a : ℚ) (fuel : ℕ) :
    ∀ dim : ℕ, a * 1.5 ≤ (dim : ℚ) * dim * 4 ^ fuel →
      ¬ ((growDimGo a fuel dim : ℚ) * (growDimGo a fuel dim) < a * 1.5) := by
  induction fuel with
  | zero => intro dim h; simp only [growDimGo]; nlinarith
  | succ n ih =>
    intro dim h
    by_cases hc : ((dim : ℚ) * dim < a * 1.5)
    · have h2 : a * 1.5 ≤ ((2 * dim : ℕ) : ℚ) * (2 * dim : ℕ) * 4 ^ n := by
        push_cast
        calc a * 1.5 ≤ (dim : ℚ) * dim * 4 ^ (n + 1) := h
          _ = 2 * (dim : ℚ) * (2 * dim) * 4 ^ n := by ring
      simpa [growDimGo, hc] using ih (2 * dim) h2
    · simp [growDimGo, hc]

/-- The iteration budget of `growDim` never truncates the source's while
loop: the result satisfies the loop's exit condition on every input, so
the bounded and the unbounded loop agree. -/
theorem growDim_adequate (a : ℚ) :
    ¬ ((growDim a : ℚ) * (growDim a) < a * 1.5) := by
  apply growDimGo_adequate
  have hM : ((MIN_TEXTURE_SIZE : ℕ) : ℚ) * (MIN_TEXTURE_SIZE : ℕ) = 4096 := by
    norm_num [MIN_TEXTURE_SIZE]
  rw [hM]
  have hpow : (0:ℚ) ≤ 4 ^ (⌈a⌉.toNat + 2) := by positivity
  rcases le_or_lt a 0 with ha | ha
  · nlinarith
  · have h1 : a ≤ (⌈a⌉.toNat : ℚ) := by
      calc a ≤ (⌈a⌉ : ℚ) := Int.le_ceil a
        _ ≤ ((⌈a⌉.toNat : ℤ) : ℚ) := by exact_mod_cast Int.self_le_toNat _
        _ = (⌈a⌉.toNat : ℚ) := by push_cast; ring
    have hn : ∀ n : ℕ, (n : ℚ) + 1 ≤ 4 ^ n := by
      intro n
      induction n with
      | zero => norm_num
      | succ k ihk =>
        have h4 : (4:ℚ) ^ (k + 1) = 4 * 4 ^ k := by ring
        have hk0 : (0:ℚ) ≤ (k : ℚ) := by positivity
        push_cast
        push_cast at ihk
        nlinarith
    have h2 : (⌈a⌉.toNat : ℚ) + 2 ≤ (4 : ℚ) ^ (⌈a⌉.toNat + 2) := by
      have := hn (⌈a⌉.toNat + 2)
      push_cast at this
      linarith
    nlinarith

/-- C2: for every cube size `(w, h, d)` and density scale `s ∈ {1, 2, 4}`,
the box-UV footprint computed by `getBoxUVSize` has width exactly
`2 * (⌈w * s⌉ + ⌈d * s⌉)` and height exactly `⌈d * s⌉ + ⌈h * s⌉`. -/
theorem claim_C2 (cube : ModelCube) (s : ℤ) (hs : s = 1 ∨ s = 2 ∨ s = 4) :
    (getBoxUVSize cube s).w =
      2 * (⌈cube.size.1 * (s : ℚ)⌉ + ⌈cube.size.2.2 * (s : ℚ)⌉) ∧
    (getBoxUVSize cube s).h =
      ⌈cube.size.2.2 * (s : ℚ)⌉ + ⌈cube.size.2.1 * (s : ℚ)⌉ :=
  ⟨rfl, rfl⟩

theorem claim_C2_witness :
    ((2 : ℤ) = 1 ∨ (2 : ℤ) = 2 ∨ (2 : ℤ) = 4) ∧
    ((getBoxUVSize Ex.cube8 2).w =
      2 * (⌈Ex.cube8.size.1 * ((2 : ℤ) : ℚ)⌉ + ⌈Ex.cube8.size.2.2 * ((2 : ℤ) : ℚ)⌉) ∧
    (getBoxUVSize Ex.cube8 2).h =
      ⌈Ex.cube8.size.2.2 * ((2 : ℤ) : ℚ)⌉ + ⌈Ex.cube8.size.2.1 * ((2 : ℤ) : ℚ)⌉) :=
  ⟨by norm_num, claim_C2 Ex.cube8 2 (by norm_num)⟩

end TextureMapper

namespace TextureMapper

/-- C3 (amended): the reference-image renderer places the six face
rectangles of a cube with UV origin `(u, v)` exactly as the spec's box-UV
layout prescribes (top `(u+rd, v)` `rw × rd`, bottom `(u+rd+rw, v)`
`rw × rd`, right `(u, v+rd)` `rd × rh`, front `(u+rd, v+rd)` `rw × rh`,
left `(u+rd+rw, v+rd)` `rd × rh`, back `(u+rd+rw+rd, v+rd)` `rw × rh`,
with `rw, rh, rd` the density-scaled ceilings), and the export-format
`textureLayout` offsets realize the same six positions when the density
scale is 1 (the `'16x'` tier).  At densities 2 and 4 the two disagree,
because `getTextureLayout` ignores the density — see the counterexample. -/
theorem claim_C3_amended (cube : ModelCube) (s : ℤ) (u v : ℤ) (tw th : ℤ)
    (huv : cube.uv = some (u, v)) :
    (drawCubeRects cube s =
      [ { face := "T", x := u + ⌈cube.size.2.2 * (s:ℚ)⌉, y := v,
          w := ⌈cube.size.1 * (s:ℚ)⌉, h := ⌈cube.size.2.2 * (s:ℚ)⌉ }
      , { face := "B", x := u + ⌈cube.size.2.2 * (s:ℚ)⌉ + ⌈cube.size.1 * (s:ℚ)⌉, y := v,
          w := ⌈cube.size.1 * (s:ℚ)⌉, h := ⌈cube.size.2.2 * (s:ℚ)⌉ }
      , { face := "R", x := u, y := v + ⌈cube.size.2.2 * (s:ℚ)⌉,
          w := ⌈cube.size.2.2 * (s:ℚ)⌉, h := ⌈cube.size.2.1 * (s:ℚ)⌉ }
      , { face := "F", x := u + ⌈cube.size.2.2 * (s:ℚ)⌉, y := v + ⌈cube.size.2.2 * (s:ℚ)⌉,
          w := ⌈cube.size.1 * (s:ℚ)⌉, h := ⌈cube.size.2.1 * (s:ℚ)⌉ }
      , { face := "L", x := u + ⌈cube.size.2.2 * (s:ℚ)⌉ + ⌈cube.size.1 * (s:ℚ)⌉,
          y := v + ⌈cube.size.2.2 * (s:ℚ)⌉,
          w := ⌈cube.size.2.2 * (s:ℚ)⌉, h := ⌈cube.size.2.1 * (s:ℚ)⌉ }
      , { face := "Bk", x := u + ⌈cube.size.2.2 * (s:ℚ)⌉ + ⌈cube.size.1 * (s:ℚ)⌉ + ⌈cube.size.2.2 * (s:ℚ)⌉,
          y := v + ⌈cube.size.2.2 * (s:ℚ)⌉,
          w := ⌈cube.size.1 * (s:ℚ)⌉, h := ⌈cube.size.2.1 * (s:ℚ)⌉ } ]) ∧
    ((drawCubeRects cube 1).map fun r => (r.face, r.x, r.y)) =
      [ ("T", (getTextureLayout cube tw th).top.offsetX, (getTextureLayout cube tw th).top.offsetY)
      , ("B", (getTextureLayout cube tw th).bottom.offsetX, (getTextureLayout cube tw th).bottom.offsetY)
      , ("R", (getTextureLayout cube tw th).right.offsetX, (getTextureLayout cube tw th).right.offsetY)
      , ("F", (getTextureLayout cube tw th).front.offsetX, (getTextureLayout cube tw th).front.offsetY)
      , ("L", (getTextureLayout cube tw th).left.offsetX, (getTextureLayout cube tw th).left.offsetY)
      , ("Bk", (getTextureLayout cube tw th).back.offsetX, (getTextureLayout cube tw th).back.offsetY) ] := by
  constructor
  · simp [drawCubeRects, huv]
  · simp [drawCubeRects, getTextureLayout, huv]

theorem claim_C3_amended_witness :
    Ex.cube8uv.uv = some (0, 0) ∧
    ((drawCubeRects Ex.cube8uv 1).map fun r => (r.face, r.x, r.y)) =
      [ ("T", (getTextureLayout Ex.cube8uv 64 64).top.offsetX, (getTextureLayout Ex.cube8uv 64 64).top.offsetY)
      , ("B", (getTextureLayout Ex.cube8uv 64 64).bottom.offsetX, (getTextureLayout Ex.cube8uv 64 64).bottom.offsetY)
      , ("R", (getTextureLayout Ex.cube8uv 64 64).right.offsetX, (getTextureLayout Ex.cube8uv 64 64).right.offsetY)
      , ("F", (getTextureLayout Ex.cube8uv 64 64).front.offsetX, (getTextureLayout Ex.cube8uv 64 64).front.offsetY)
      , ("L", (getTextureLayout Ex.cube8uv 64 64).left.offsetX, (getTextureLayout Ex.cube8uv 64 64).left.offsetY)
      , ("Bk", (getTextureLayout Ex.cube8uv 64 64).back.offsetX, (getTextureLayout Ex.cube8uv 64 64).back.offsetY) ] :=
  ⟨rfl, (claim_C3_amended Ex.cube8uv 1 0 0 64 64 rfl).2⟩

/-- C3 (counterexample): for the cube `size = [8,8,8]` at UV origin
`(0,0)` and density `'32x'` (scale 2), the renderer places the top face at
`x = 16` while the export `textureLayout` puts its offset at `x = 8`: the
two layouts are not identical for the same cube, UV origin and density —
`getTextureLayout` has no density input at all. -/
theorem claim_C3_counterexample :
    ((drawCubeRects Ex.cube8uv (densityScaleOf .d32x)).map fun r => (r.face, r.x, r.y)) ≠
      [ ("T", (getTextureLayout Ex.cube8uv 64 64).top.offsetX, (getTextureLayout Ex.cube8uv 64 64).top.offsetY)
      , ("B", (getTextureLayout Ex.cube8uv 64 64).bottom.offsetX, (getTextureLayout Ex.cube8uv 64 64).bottom.offsetY)
      , ("R", (getTextureLayout Ex.cube8uv 64 64).right.offsetX, (getTextureLayout Ex.cube8uv 64 64).right.offsetY)
      , ("F", (getTextureLayout Ex.cube8uv 64 64).front.offsetX, (getTextureLayout Ex.cube8uv 64 64).front.offsetY)
      , ("L", (getTextureLayout Ex.cube8uv 64 64).left.offsetX, (getTextureLayout Ex.cube8uv 64 64).left.offsetY)
      , ("Bk", (getTextureLayout Ex.cube8uv 64 64).back.offsetX, (getTextureLayout Ex.cube8uv 64 64).back.offsetY) ] := by
  have h1 : ((drawCubeRects Ex.cube8uv (densityScaleOf .d32x)).map fun r => (r.face, r.x, r.y)) =
      [("T", 16, 0), ("B", 32, 0), ("R", 0, 16), ("F", 16, 16), ("L", 32, 16), ("Bk", 48, 16)] := by
    norm_num [drawCubeRects, densityScaleOf, Ex.cube8uv, Ex.cube8, Ex.cube]
  have h2 : (getTextureLayout Ex.cube8uv 64 64).top.offsetX = 8 := by
    norm_num [getTextureLayout, Ex.cube8uv, Ex.cube8, Ex.cube]
  intro h
  rw [h1] at h
  have := congrArg (fun l => l.head?) h
  simp [h2] at this

/-- C8: `scaleModelUVs` maps every assigned UV origin to
`round(old * newSize / oldSize)` per axis (and leaves unassigned cubes
alone), is a no-op when the requested size equals the recorded size, and
the per-axis rescale composes up to rounding: rescaling `A → B → C`
differs from rescaling `A → C` by at most `C / (2B) + 1`. -/
theorem claim_C8 :
    (∀ m : MinecraftModel, ∀ bd : BedrockData, ∀ newW newH oldW oldH : ℤ,
      m.bedrockData = some bd →
      bd.texture_size.getD ((MIN_TEXTURE_SIZE : ℤ), (MIN_TEXTURE_SIZE : ℤ)) = (oldW, oldH) →
      ¬ (oldW = newW ∧ oldH = newH) →
      scaleModelUVs m newW newH = { m with
        bedrockData := some { bd with
          texture_size := some (newW, newH)
          bones := bd.bones.map fun bone => { bone with
            cubes := bone.cubes.map fun cube =>
              match cube.uv with
              | some p =>
                { cube with
                  uv := some (rescaleAxis p.1 oldW newW, rescaleAxis p.2 oldH newH) }
              | none => cube } } }) ∧
    (∀ m : MinecraftModel, ∀ bd : BedrockData, ∀ S : ℤ,
      m.bedrockData = some bd → bd.texture_size = some (S, S) →
      scaleModelUVs m S S = m) ∧
    (∀ u A B C : ℤ, 0 < A → 0 < B → 0 < C →
      |((rescaleAxis (rescaleAxis u A B) B C : ℚ)) - (rescaleAxis u A C : ℚ)| ≤
        (C : ℚ) / (2 * B) + 1) := by
  refine ⟨?_, ?_, ?_⟩
  · intro m bd newW newH oldW oldH hbd hold hne
    simp only [scaleModelUVs, hbd, hold, hne, if_false]
  · intro m bd S hbd hts
    simp [scaleModelUVs, hbd, hts]
  · intro u A B C hA hB hC
    have hA0 : ((A : ℚ)) ≠ 0 := by positivity
    have hB0 : ((B : ℚ)) ≠ 0 := by positivity
    have hBpos : (0:ℚ) < (B : ℚ) := by positivity
    have hCpos : (0:ℚ) < (C : ℚ) := by positivity
    set r1 : ℤ := rescaleAxis u A B with hr1
    set x : ℚ := (u : ℚ) * ((C : ℚ) / (A : ℚ)) with hx
    have e1 : |(r1 : ℚ) - (u : ℚ) * ((B : ℚ) / (A : ℚ))| ≤ 1 / 2 := by
      rw [hr1, rescaleAxis]
      have := abs_sub_round ((u : ℚ) * ((B : ℚ) / (A : ℚ)))
      rw [abs_sub_comm] at this
      exact this
    have e2 : |(rescaleAxis r1 B C : ℚ) - (r1 : ℚ) * ((C : ℚ) / (B : ℚ))| ≤ 1 / 2 := by
      rw [rescaleAxis]
      have := abs_sub_round ((r1 : ℚ) * ((C : ℚ) / (B : ℚ)))
      rw [abs_sub_comm] at this
      exact this
    have e3 : |x - (rescaleAxis u A C : ℚ)| ≤ 1 / 2 := by
      rw [rescaleAxis, hx]
      exact abs_sub_round ((u : ℚ) * ((C : ℚ) / (A : ℚ)))
    have e4 : |(r1 : ℚ) * ((C : ℚ) / (B : ℚ)) - x| ≤ (C : ℚ) / (2 * B) := by
      have : (r1 : ℚ) * ((C : ℚ) / (B : ℚ)) - x =
          ((r1 : ℚ) - (u : ℚ) * ((B : ℚ) / (A : ℚ))) * ((C : ℚ) / (B : ℚ)) := by
        rw [hx]
        field_simp
        ring
      rw [this, abs_mul]
      have hcb : |(C : ℚ) / (B : ℚ)| = (C : ℚ) / (B : ℚ) := by
        rw [abs_of_pos]
        positivity
      rw [hcb]
      calc |(r1 : ℚ) - (u : ℚ) * ((B : ℚ) / (A : ℚ))| * ((C : ℚ) / (B : ℚ))
          ≤ (1 / 2) * ((C : ℚ) / (B : ℚ)) := by
            apply mul_le_mul_of_nonneg_right e1
            positivity
        _ = (C : ℚ) / (2 * B) := by ring
    calc |((rescaleAxis r1 B C : ℚ)) - (rescaleAxis u A C : ℚ)|
        = |((rescaleAxis r1 B C : ℚ) - (r1 : ℚ) * ((C : ℚ) / (B : ℚ))) +
            ((r1 : ℚ) * ((C : ℚ) / (B : ℚ)) - x) + (x - (rescaleAxis u A C : ℚ))| := by
          ring_nf
      _ ≤ |(rescaleAxis r1 B C : ℚ) - (r1 : ℚ) * ((C : ℚ) / (B : ℚ))| +
            |(r1 : ℚ) * ((C : ℚ) / (B : ℚ)) - x| + |x - (rescaleAxis u A C : ℚ)| := by
          apply le_trans (abs_add _ _)
          apply add_le_add_right
          exact abs_add _ _
      _ ≤ 1 / 2 + (C : ℚ) / (2 * B) + 1 / 2 := by
          apply add_le_add (add_le_add e2 e4) e3
      _ = (C : ℚ) / (2 * B) + 1 := by ring

end TextureMapper

namespace TextureMapper

theorem claim_C8_witness :
    (Ex.model8.bedrockData = some (Ex.bd1 [Ex.cube8]) ∧
      (Ex.bd1 [Ex.cube8]).texture_size.getD ((MIN_TEXTURE_SIZE : ℤ), (MIN_TEXTURE_SIZE : ℤ)) = (64, 64) ∧
      ¬ ((64 : ℤ) = 128 ∧ (64 : ℤ) = 128) ∧
      scaleModelUVs Ex.model8 128 128 = { Ex.model8 with
        bedrockData := some { Ex.bd1 [Ex.cube8] with
          texture_size := some (128, 128)
          bones := (Ex.bd1 [Ex.cube8]).bones.map fun bone => { bone with
            cubes := bone.cubes.map fun cube =>
              match cube.uv with
              | some p =>
                { cube with
                  uv := some (rescaleAxis p.1 64 128, rescaleAxis p.2 64 128) }
              | none => cube } } }) ∧
    ((Ex.bd1 [Ex.cube8]).texture_size = some (64, 64) ∧
      scaleModelUVs Ex.model8 64 64 = Ex.model8) ∧
    ((0 : ℤ) < 64 ∧ (0 : ℤ) < 128 ∧ (0 : ℤ) < 256 ∧
      |((rescaleAxis (rescaleAxis 10 64 128) 128 256 : ℚ)) - (rescaleAxis 10 64 256 : ℚ)| ≤
        (256 : ℚ) / (2 * 128) + 1) :=
  ⟨⟨rfl, rfl, by norm_num,
      claim_C8.1 Ex.model8 (Ex.bd1 [Ex.cube8]) 128 128 64 64 rfl rfl (by norm_num)⟩,
    ⟨rfl, claim_C8.2.1 Ex.model8 (Ex.bd1 [Ex.cube8]) 64 rfl rfl⟩,
    ⟨by norm_num, by norm_num, by norm_num,
      claim_C8.2.2 10 64 128 256 (by norm_num) (by norm_num) (by norm_num)⟩⟩

end TextureMapper

namespace TextureMapper

theorem padDisj_symm : ∀ r₁ r₂, padDisj r₁ r₂ → padDisj r₂ r₁ := by
  intro r₁ r₂ h
  unfold padDisj rectsDisjoint at h ⊢
  tauto

theorem packStep_asg (tW : ℤ) (s : PackState) (i : BoxPackerItem) :
    ∃ x y : ℤ, (packStep tW s i).asg = s.asg ++ [(i, x, y)] := by
  by_cases hnr : s.currentX + i.w > tW <;>
    simp [packStep, hnr]

theorem packInv_step (tW : ℤ) (s : PackState) (i : BoxPackerItem)
    (hInv : PackInv s) (hw : 1 ≤ i.w) (hh : 1 ≤ i.h) :
    PackInv (packStep tW s i) := by
  obtain ⟨hx, hy, hrh, hall, hpw⟩ := hInv
  by_cases hnr : s.currentX + i.w > tW
  · -- new row: placed at (0, currentY + rowHeight + PADDING)
    simp only [packStep, if_pos hnr]
    refine ⟨by simp [PADDING]; omega, by simp [PADDING]; omega, by simp, ?_, ?_⟩
    · intro r hr
      simp only [List.mem_append, List.mem_singleton] at hr
      rcases hr with hr | hr
      · left
        rcases hall r hr with hfin | hrow
        · unfold Finished at hfin ⊢
          simp only
          simp [PADDING] at hfin ⊢
          omega
        · obtain ⟨h1, h2, h3⟩ := hrow
          unfold Finished
          simp only
          simp [PADDING] at h1 h3 ⊢
          omega
      · right
        subst hr
        refine ⟨rfl, le_refl _, le_max_right _ _⟩
    · rw [List.pairwise_append]
      refine ⟨hpw, List.pairwise_singleton _ _, ?_⟩
      intro r hr b hb
      simp only [List.mem_singleton] at hb
      subst hb
      unfold padDisj rectsDisjoint
      simp only
      rcases hall r hr with hfin | hrow
      · unfold Finished at hfin
        simp [PADDING] at hfin ⊢
        omega
      · obtain ⟨h1, h2, h3⟩ := hrow
        simp [PADDING] at h2 h3 ⊢
        omega
  · -- same row: placed at (currentX, currentY)
    simp only [packStep, if_neg hnr]
    refine ⟨by simp [PADDING]; omega, by simpa, by simp; omega, ?_, ?_⟩
    · intro r hr
      simp only [List.mem_append, List.mem_singleton] at hr
      rcases hr with hr | hr
      · rcases hall r hr with hfin | hrow
        · left
          exact hfin
        · right
          obtain ⟨h1, h2, h3⟩ := hrow
          refine ⟨h1, ?_, le_trans h3 (le_max_left _ _)⟩
          simp only
          simp [PADDING] at h2 ⊢
          omega
      · right
        subst hr
        exact ⟨rfl, le_refl _, le_max_right _ _⟩
    · rw [List.pairwise_append]
      refine ⟨hpw, List.pairwise_singleton _ _, ?_⟩
      intro r hr b hb
      simp only [List.mem_singleton] at hb
      subst hb
      unfold padDisj rectsDisjoint
      simp only
      rcases hall r hr with hfin | hrow
      · unfold Finished at hfin
        simp [PADDING] at hfin ⊢
        omega
      · obtain ⟨h1, h2, h3⟩ := hrow
        simp [PADDING] at h2 ⊢
        omega

theorem packInv_foldl (tW : ℤ) :
    ∀ (items : List BoxPackerItem) (s : PackState), PackInv s →
      (∀ i ∈ items, 1 ≤ i.w ∧ 1 ≤ i.h) →
      PackInv (items.foldl (packStep tW) s) := by
  intro items
  induction items with
  | nil => intro s hs _; simpa using hs
  | cons i rest ih =>
    intro s hs hsz
    simp only [List.foldl_cons]
    exact ih (packStep tW s i)
      (packInv_step tW s i hs (hsz i (by simp)).1 (hsz i (by simp)).2)
      (fun j hj => hsz j (by simp [hj]))

end TextureMapper

namespace TextureMapper

theorem packBounds_step (tW : ℤ) (s : PackState) (i : BoxPackerItem)
    (hInv : PackInv s) (hB : PackBounds tW s)
    (hw1 : 1 ≤ i.w) (hwtW : i.w ≤ tW) (hh1 : 1 ≤ i.h) (hh62 : i.h ≤ 62) :
    PackBounds tW (packStep tW s i) := by
  obtain ⟨hx, hy, hrh, _, _⟩ := hInv
  obtain ⟨h64, hcyrh, hrec⟩ := hB
  by_cases hnr : s.currentX + i.w > tW
  · simp only [packStep, if_pos hnr]
    by_cases hov : s.currentY + s.rowHeight + PADDING + i.h > s.textureH
    · refine ⟨by simp [hov]; omega, ?_, ?_⟩
      · simp only [if_pos hov]
        simp [PADDING] at hov ⊢
        omega
      · intro r hr
        simp only [List.mem_append, List.mem_singleton] at hr
        simp only [if_pos hov]
        rcases hr with hr | hr
        · obtain ⟨a1, a2, a3, a4⟩ := hrec r hr
          exact ⟨a1, a2, a3, by omega⟩
        · subst hr
          simp [PADDING] at hov ⊢
          omega
    · refine ⟨by simp [hov]; omega, ?_, ?_⟩
      · simp only [if_neg hov]
        simp [PADDING] at hov ⊢
        omega
      · intro r hr
        simp only [List.mem_append, List.mem_singleton] at hr
        simp only [if_neg hov]
        rcases hr with hr | hr
        · exact hrec r hr
        · subst hr
          simp [PADDING] at hov ⊢
          omega
  · simp only [packStep, if_neg hnr]
    push_neg at hnr
    by_cases hov : s.currentY + i.h > s.textureH
    · refine ⟨by simp [hov]; omega, ?_, ?_⟩
      · simp only [if_pos hov]
        simp [PADDING] at hov ⊢
        omega
      · intro r hr
        simp only [List.mem_append, List.mem_singleton] at hr
        simp only [if_pos hov]
        rcases hr with hr | hr
        · obtain ⟨a1, a2, a3, a4⟩ := hrec r hr
          exact ⟨a1, a2, a3, by omega⟩
        · subst hr
          refine ⟨hx, hy, by simp; omega, by simp; omega⟩
    · refine ⟨by simp [hov]; omega, ?_, ?_⟩
      · simp only [if_neg hov]
        simp at hov ⊢
        omega
      · intro r hr
        simp only [List.mem_append, List.mem_singleton] at hr
        simp only [if_neg hov]
        rcases hr with hr | hr
        · exact hrec r hr
        · subst hr
          refine ⟨hx, hy, by simp; omega, by simp; omega⟩

theorem packBounds_foldl (tW : ℤ) :
    ∀ (items : List BoxPackerItem) (s : PackState), PackInv s →
      PackBounds tW s →
      (∀ i ∈ items, 1 ≤ i.w ∧ i.w ≤ tW ∧ 1 ≤ i.h ∧ i.h ≤ 62) →
      PackBounds tW (items.foldl (packStep tW) s) := by
  intro items
  induction items with
  | nil => intro s _ hb _; simpa using hb
  | cons i rest ih =>
    intro s hs hb hsz
    obtain ⟨a1, a2, a3, a4⟩ := hsz i (by simp)
    simp only [List.foldl_cons]
    exact ih (packStep tW s i)
      (packInv_step tW s i hs a1 a3)
      (packBounds_step tW s i hs hb a1 a2 a3 a4)
      (fun j hj => hsz j (by simp [hj]))

end TextureMapper

namespace TextureMapper

theorem foldl_packStep_ids (tW : ℤ) :
    ∀ (items : List BoxPackerItem) (s : PackState),
      ((items.foldl (packStep tW) s).asg).map (fun r => r.1) =
        s.asg.map (fun r => r.1) ++ items := by
  intro items
  induction items with
  | nil => intro s; simp
  | cons i rest ih =>
    intro s
    simp only [List.foldl_cons]
    rw [ih (packStep tW s i)]
    obtain ⟨x, y, hxy⟩ := packStep_asg tW s i
    rw [hxy]
    simp

theorem mem_foldl_packStep (tW : ℤ) (items : List BoxPackerItem)
    (i : BoxPackerItem) (hi : i ∈ items) :
    ∃ p : ℤ × ℤ,
      (i, p) ∈ (items.foldl (packStep tW)
        { currentX := 0, currentY := 0, rowHeight := 0, textureH := tW, asg := [] }).asg := by
  have h := foldl_packStep_ids tW items
    { currentX := 0, currentY := 0, rowHeight := 0, textureH := tW, asg := [] }
  simp only [List.map_nil, List.nil_append] at h
  have : i ∈ ((items.foldl (packStep tW)
      { currentX := 0, currentY := 0, rowHeight := 0, textureH := tW, asg := [] }).asg).map
        (fun r => r.1) := by
    rw [h]; exact hi
  obtain ⟨r, hr, hr1⟩ := List.mem_map.mp this
  refine ⟨r.2, ?_⟩
  rw [← hr1, Prod.mk.eta]
  exact hr

theorem itemsOfCubes_id_fst (bIdx : ℕ) (ds : ℤ) :
    ∀ (cIdx : ℕ) (cubes : List ModelCube) (i : BoxPackerItem),
      i ∈ itemsOfCubes bIdx ds cIdx cubes → i.id.1 = bIdx ∧ cIdx ≤ i.id.2 := by
  intro cIdx cubes
  induction cubes generalizing cIdx with
  | nil => intro i hi; simp [itemsOfCubes] at hi
  | cons c rest ih =>
    intro i hi
    simp only [itemsOfCubes, List.mem_cons] at hi
    rcases hi with hi | hi
    · subst hi; exact ⟨rfl, le_refl _⟩
    · obtain ⟨h1, h2⟩ := ih (cIdx + 1) i hi
      exact ⟨h1, by omega⟩

theorem itemsOfCubes_ids_nodup (bIdx : ℕ) (ds : ℤ) :
    ∀ (cIdx : ℕ) (cubes : List ModelCube),
      ((itemsOfCubes bIdx ds cIdx cubes).map (fun i => i.id)).Nodup := by
  intro cIdx cubes
  induction cubes generalizing cIdx with
  | nil => simp [itemsOfCubes]
  | cons c rest ih =>
    simp only [itemsOfCubes, List.map_cons, List.nodup_cons]
    refine ⟨?_, ih (cIdx + 1)⟩
    intro hmem
    obtain ⟨i, hi, hid⟩ := List.mem_map.mp hmem
    obtain ⟨_, h2⟩ := itemsOfCubes_id_fst bIdx ds (cIdx + 1) rest i hi
    rw [hid] at h2
    simp at h2

theorem itemsOfBones_id_fst (ds : ℤ) :
    ∀ (bIdx : ℕ) (bones : List ModelBone) (i : BoxPackerItem),
      i ∈ itemsOfBones ds bIdx bones → bIdx ≤ i.id.1 := by
  intro bIdx bones
  induction bones generalizing bIdx with
  | nil => intro i hi; simp [itemsOfBones] at hi
  | cons b rest ih =>
    intro i hi
    simp only [itemsOfBones, List.mem_append] at hi
    rcases hi with hi | hi
    · exact le_of_eq (itemsOfCubes_id_fst bIdx ds 0 b.cubes i hi).1.symm
    · have := ih (bIdx + 1) i hi
      omega

theorem itemsOfBones_ids_nodup (ds : ℤ) :
    ∀ (bIdx : ℕ) (bones : List ModelBone),
      ((itemsOfBones ds bIdx bones).map (fun i => i.id)).Nodup := by
  intro bIdx bones
  induction bones generalizing bIdx with
  | nil => simp [itemsOfBones]
  | cons b rest ih =>
    simp only [itemsOfBones, List.map_append]
    rw [List.nodup_append]
    refine ⟨itemsOfCubes_ids_nodup bIdx ds 0 b.cubes, ih (bIdx + 1), ?_⟩
    intro x hx hy
    obtain ⟨i, hi, hix⟩ := List.mem_map.mp hx
    obtain ⟨j, hj, hjy⟩ := List.mem_map.mp hy
    have h1 := (itemsOfCubes_id_fst bIdx ds 0 b.cubes i hi).1
    have h2 := itemsOfBones_id_fst ds (bIdx + 1) rest j hj
    have hx1 : x.1 = bIdx := by rw [← hix]; exact h1
    have hx2 : bIdx + 1 ≤ x.1 := by rw [← hjy]; exact h2
    omega

theorem itemsOf_ids_nodup (bones : List ModelBone) (ds : ℤ) :
    ((itemsOf bones ds).map (fun i => i.id)).Nodup :=
  itemsOfBones_ids_nodup ds 0 bones

theorem itemsOfCubes_mem (bIdx : ℕ) (ds : ℤ) :
    ∀ (cubes : List ModelCube) (cIdx c : ℕ) (cube : ModelCube),
      cubes[c]? = some cube →
      ({ id := (bIdx, cIdx + c), w := (getBoxUVSize cube ds).w,
         h := (getBoxUVSize cube ds).h } : BoxPackerItem) ∈
        itemsOfCubes bIdx ds cIdx cubes := by
  intro cubes
  induction cubes with
  | nil => intro cIdx c cube hc; simp at hc
  | cons c0 rest ih =>
    intro cIdx c cube hc
    match c with
    | 0 =>
      simp only [List.getElem?_cons_zero, Option.some.injEq] at hc
      subst hc
      simp [itemsOfCubes]
    | Nat.succ c' =>
      simp only [List.getElem?_cons_succ] at hc
      have := ih (cIdx + 1) c' cube hc
      simp only [itemsOfCubes, List.mem_cons]
      right
      have harith : cIdx + 1 + c' = cIdx + (c' + 1) := by omega
      rwa [harith] at this

theorem itemsOfBones_mem (ds : ℤ) :
    ∀ (bones : List ModelBone) (bIdx b : ℕ) (bone : ModelBone) (c : ℕ)
      (cube : ModelCube),
      bones[b]? = some bone → bone.cubes[c]? = some cube →
      ({ id := (bIdx + b, c), w := (getBoxUVSize cube ds).w,
         h := (getBoxUVSize cube ds).h } : BoxPackerItem) ∈
        itemsOfBones ds bIdx bones := by
  intro bones
  induction bones with
  | nil => intro bIdx b bone c cube hb; simp at hb
  | cons b0 rest ih =>
    intro bIdx b bone c cube hb hc
    match b with
    | 0 =>
      simp only [List.getElem?_cons_zero, Option.some.injEq] at hb
      subst hb
      simp only [itemsOfBones, List.mem_append]
      left
      simpa using itemsOfCubes_mem bIdx ds b0.cubes 0 c cube hc
    | Nat.succ b' =>
      simp only [List.getElem?_cons_succ] at hb
      have := ih (bIdx + 1) b' bone c cube hb hc
      simp only [itemsOfBones, List.mem_append]
      right
      have harith : bIdx + 1 + b' = bIdx + (b' + 1) := by omega
      rwa [harith] at this

theorem find?_of_mem_nodup :
    ∀ (asg : List (BoxPackerItem × ℤ × ℤ)) (r : BoxPackerItem × ℤ × ℤ),
      r ∈ asg → ((asg.map (fun e => e.1.id)).Nodup) →
      asg.find? (fun e => decide (e.1.id = r.1.id)) = some r := by
  intro asg
  induction asg with
  | nil => intro r hr; simp at hr
  | cons a rest ih =>
    intro r hr hnd
    simp only [List.map_cons, List.nodup_cons] at hnd
    rcases List.mem_cons.mp hr with hr0 | hrt
    · subst hr0
      rw [List.find?_cons_of_pos _ (by simp)]
    · have hne : ¬ (a.1.id = r.1.id) := by
        intro he
        exact hnd.1 (he ▸ List.mem_map.mpr ⟨r, hrt, rfl⟩)
      rw [List.find?_cons_of_neg _ (by simpa using hne)]
      exact ih r hrt hnd.2

end TextureMapper

namespace TextureMapper

theorem applyAsgCubes_getElem (asg : List (BoxPackerItem × ℤ × ℤ)) (bIdx : ℕ) :
    ∀ (cubes : List ModelCube) (cIdx c : ℕ),
      (applyAsgCubes asg bIdx cIdx cubes)[c]? =
        (cubes[c]?).map fun cube =>
          match asg.find? (fun r => decide (r.1.id = (bIdx, cIdx + c))) with
          | some r => { cube with uv := some r.2 }
          | none => cube := by
  intro cubes
  induction cubes with
  | nil => intro cIdx c; simp [applyAsgCubes]
  | cons c0 rest ih =>
    intro cIdx c
    match c with
    | 0 => simp [applyAsgCubes]
    | Nat.succ c' =>
      simp only [applyAsgCubes, List.getElem?_cons_succ]
      rw [ih (cIdx + 1) c']
      have harith : cIdx + 1 + c' = cIdx + (c' + 1) := by omega
      rw [harith]

theorem applyAsgBones_getElem (asg : List (BoxPackerItem × ℤ × ℤ)) :
    ∀ (bones : List ModelBone) (bIdx b : ℕ),
      (applyAsgBones asg bIdx bones)[b]? =
        (bones[b]?).map fun bone =>
          { bone with cubes := applyAsgCubes asg (bIdx + b) 0 bone.cubes } := by
  intro bones
  induction bones with
  | nil => intro bIdx b; simp [applyAsgBones]
  | cons b0 rest ih =>
    intro bIdx b
    match b with
    | 0 => simp [applyAsgBones]
    | Nat.succ b' =>
      simp only [applyAsgBones, List.getElem?_cons_succ]
      rw [ih (bIdx + 1) b']
      have harith : bIdx + 1 + b' = bIdx + (b' + 1) := by omega
      rw [harith]

theorem packFinal_ids (bones : List ModelBone) (ds : ℤ) :
    ((packFinal bones ds).asg).map (fun r => r.1) = sortedItems bones ds := by
  unfold packFinal
  rw [foldl_packStep_ids]
  simp

theorem packCompute_fst (bones : List ModelBone) (d : Density) :
    (packCompute bones d).1 = (packFinal bones (densityScaleOf d)).asg := rfl

theorem packCompute_ids_nodup (bones : List ModelBone) (d : Density) :
    (((packCompute bones d).1).map (fun e => e.1.id)).Nodup := by
  rw [packCompute_fst]
  have h1 : ((packFinal bones (densityScaleOf d)).asg).map (fun e => e.1.id) =
      (((packFinal bones (densityScaleOf d)).asg).map (fun r => r.1)).map (fun i => i.id) := by
    rw [List.map_map]
    rfl
  rw [h1, packFinal_ids]
  have hperm : ((sortedItems bones (densityScaleOf d)).map (fun i => i.id)).Perm
      ((itemsOf bones (densityScaleOf d)).map (fun i => i.id)) :=
    (List.perm_insertionSort _ _).map _
  exact hperm.nodup_iff.mpr (itemsOf_ids_nodup bones (densityScaleOf d))

/-- Every cube of an ENTITY model receives an assignment record in
`packCompute`, and `packUVs` writes exactly that record's UV into the
returned model: the access path shared by claims C4, C5 and C9. -/
theorem packUVs_cubeAt (m : MinecraftModel) (d : Density) (bd : BedrockData)
    (b c : ℕ) (cube : ModelCube)
    (hty : m.type = ModelType.ENTITY) (hbd : m.bedrockData = some bd)
    (hcube : cubeAt m b c = some cube) :
    ∃ r : BoxPackerItem × ℤ × ℤ, r ∈ (packCompute bd.bones d).1 ∧
      r.1.id = (b, c) ∧
      r.1.w = (getBoxUVSize cube (densityScaleOf d)).w ∧
      r.1.h = (getBoxUVSize cube (densityScaleOf d)).h ∧
      cubeAt (packUVs m d) b c = some { cube with uv := some r.2 } := by
  unfold cubeAt at hcube
  rw [hbd] at hcube
  have hcube2 : (match bd.bones[b]? with
      | some bone => bone.cubes[c]?
      | none => none) = some cube := hcube
  obtain ⟨bone, hb, hc⟩ : ∃ bone, bd.bones[b]? = some bone ∧ bone.cubes[c]? = some cube := by
    rcases hbone : bd.bones[b]? with _ | bone
    · rw [hbone] at hcube2
      simp at hcube2
    · rw [hbone] at hcube2
      exact ⟨bone, rfl, hcube2⟩
  set item : BoxPackerItem :=
    { id := (b, c)
      w := (getBoxUVSize cube (densityScaleOf d)).w
      h := (getBoxUVSize cube (densityScaleOf d)).h } with hitem
  have hmem : item ∈ itemsOf bd.bones (densityScaleOf d) := by
    rw [hitem]
    have := itemsOfBones_mem (densityScaleOf d) bd.bones 0 b bone c cube hb hc
    simpa [itemsOf] using this
  have hsortmem : item ∈ sortedItems bd.bones (densityScaleOf d) :=
    ((List.perm_insertionSort _ _).mem_iff).mpr hmem
  obtain ⟨p, hp⟩ := mem_foldl_packStep (initialDim bd.bones (densityScaleOf d))
    (sortedItems bd.bones (densityScaleOf d)) _ hsortmem
  have hpmem : (item, p) ∈ (packCompute bd.bones d).1 := by
    rw [packCompute_fst]
    exact hp
  refine ⟨(item, p), hpmem, by rw [hitem], by rw [hitem], by rw [hitem], ?_⟩
  have hfind := find?_of_mem_nodup ((packCompute bd.bones d).1) _ hpmem
    (packCompute_ids_nodup bd.bones d)
  have hid : (item, p).1.id = (b, c) := by rw [hitem]
  rw [hid] at hfind
  unfold cubeAt packUVs
  rw [hty, hbd]
  simp only
  rw [applyAsg, applyAsgBones_getElem, hb]
  simp only [Option.map_some']
  rw [applyAsgCubes_getElem, hc]
  simp only [Option.map_some', Option.some.injEq]
  simp only [Nat.zero_add] at hfind ⊢
  rw [hfind]

end TextureMapper

namespace TextureMapper

theorem packInv_start (tH : ℤ) :
    PackInv { currentX := 0, currentY := 0, rowHeight := 0, textureH := tH, asg := [] } := by
  refine ⟨le_refl _, le_refl _, le_refl _, ?_, List.Pairwise.nil⟩
  intro r hr
  simp at hr

theorem packFinal_inv (bones : List ModelBone) (ds : ℤ)
    (hsz : ∀ i ∈ itemsOf bones ds, 1 ≤ i.w ∧ 1 ≤ i.h) :
    PackInv (packFinal bones ds) := by
  unfold packFinal
  apply packInv_foldl _ _ _ (packInv_start _)
  intro i hi
  exact hsz i (((List.perm_insertionSort _ _).mem_iff).mp hi)

/-- C4: for every ENTITY model whose 1-to-500 packer items all have
footprints within `[1, 64]²`, the UV origins assigned by `packUVs` place
the padded footprints pairwise without overlap. -/
theorem claim_C4 (m : MinecraftModel) (d : Density) (bd : BedrockData)
    (hty : m.type = ModelType.ENTITY) (hbd : m.bedrockData = some bd)
    (hcount : 1 ≤ (itemsOf bd.bones (densityScaleOf d)).length ∧
      (itemsOf bd.bones (densityScaleOf d)).length ≤ 500)
    (hsz : ∀ i ∈ itemsOf bd.bones (densityScaleOf d),
      1 ≤ i.w ∧ i.w ≤ 64 ∧ 1 ≤ i.h ∧ i.h ≤ 64) :
    ∀ b1 c1 cube1 b2 c2 cube2, cubeAt m b1 c1 = some cube1 →
      cubeAt m b2 c2 = some cube2 → (b1, c1) ≠ (b2, c2) →
      ∃ p1 p2 : ℤ × ℤ,
        cubeAt (packUVs m d) b1 c1 = some { cube1 with uv := some p1 } ∧
        cubeAt (packUVs m d) b2 c2 = some { cube2 with uv := some p2 } ∧
        rectsDisjoint p1.1 p1.2
          ((getBoxUVSize cube1 (densityScaleOf d)).w + PADDING)
          ((getBoxUVSize cube1 (densityScaleOf d)).h + PADDING)
          p2.1 p2.2
          ((getBoxUVSize cube2 (densityScaleOf d)).w + PADDING)
          ((getBoxUVSize cube2 (densityScaleOf d)).h + PADDING) := by
  intro b1 c1 cube1 b2 c2 cube2 h1 h2 hne
  obtain ⟨r1, hr1mem, hr1id, hr1w, hr1h, hr1out⟩ :=
    packUVs_cubeAt m d bd b1 c1 cube1 hty hbd h1
  obtain ⟨r2, hr2mem, hr2id, hr2w, hr2h, hr2out⟩ :=
    packUVs_cubeAt m d bd b2 c2 cube2 hty hbd h2
  have hinv := packFinal_inv bd.bones (densityScaleOf d)
    (fun i hi => ⟨(hsz i hi).1, (hsz i hi).2.2.1⟩)
  have hpw : ((packFinal bd.bones (densityScaleOf d)).asg).Pairwise padDisj :=
    hinv.2.2.2.2
  have hrne : r1 ≠ r2 := by
    intro he
    rw [he, hr2id] at hr1id
    exact hne hr1id.symm
  have hdisj : padDisj r1 r2 := by
    refine hpw.forall (fun x y hxy => padDisj_symm x y hxy) ?_ ?_ hrne
    · rw [← packCompute_fst]; exact hr1mem
    · rw [← packCompute_fst]; exact hr2mem
  refine ⟨r1.2, r2.2, hr1out, hr2out, ?_⟩
  unfold padDisj at hdisj
  rw [hr1w, hr1h, hr2w, hr2h] at hdisj
  exact hdisj

theorem claim_C4_witness :
    (Ex.model8.type = ModelType.ENTITY ∧
     Ex.model8.bedrockData = some (Ex.bd1 [Ex.cube8]) ∧
     (1 ≤ (itemsOf (Ex.bd1 [Ex.cube8]).bones (densityScaleOf .d16x)).length ∧
       (itemsOf (Ex.bd1 [Ex.cube8]).bones (densityScaleOf .d16x)).length ≤ 500) ∧
     (∀ i ∈ itemsOf (Ex.bd1 [Ex.cube8]).bones (densityScaleOf .d16x),
       1 ≤ i.w ∧ i.w ≤ 64 ∧ 1 ≤ i.h ∧ i.h ≤ 64)) ∧
    (∀ b1 c1 cube1 b2 c2 cube2, cubeAt Ex.model8 b1 c1 = some cube1 →
      cubeAt Ex.model8 b2 c2 = some cube2 → (b1, c1) ≠ (b2, c2) →
      ∃ p1 p2 : ℤ × ℤ,
        cubeAt (packUVs Ex.model8 .d16x) b1 c1 = some { cube1 with uv := some p1 } ∧
        cubeAt (packUVs Ex.model8 .d16x) b2 c2 = some { cube2 with uv := some p2 } ∧
        rectsDisjoint p1.1 p1.2
          ((getBoxUVSize cube1 (densityScaleOf .d16x)).w + PADDING)
          ((getBoxUVSize cube1 (densityScaleOf .d16x)).h + PADDING)
          p2.1 p2.2
          ((getBoxUVSize cube2 (densityScaleOf .d16x)).w + PADDING)
          ((getBoxUVSize cube2 (densityScaleOf .d16x)).h + PADDING)) := by
  have hsz : ∀ i ∈ itemsOf (Ex.bd1 [Ex.cube8]).bones (densityScaleOf .d16x),
      1 ≤ i.w ∧ i.w ≤ 64 ∧ 1 ≤ i.h ∧ i.h ≤ 64 := by
    intro i hi
    norm_num [itemsOf, itemsOfBones, itemsOfCubes, getBoxUVSize, Ex.bd1, Ex.cube8,
      Ex.cube, densityScaleOf] at hi
    rw [hi]
    norm_num
  have hcount : 1 ≤ (itemsOf (Ex.bd1 [Ex.cube8]).bones (densityScaleOf .d16x)).length ∧
      (itemsOf (Ex.bd1 [Ex.cube8]).bones (densityScaleOf .d16x)).length ≤ 500 := by
    norm_num [itemsOf, itemsOfBones, itemsOfCubes, Ex.bd1, densityScaleOf]
  exact ⟨⟨rfl, rfl, hcount, hsz⟩,
    claim_C4 Ex.model8 .d16x (Ex.bd1 [Ex.cube8]) rfl rfl hcount hsz⟩

end TextureMapper

namespace TextureMapper

theorem growDim_eq_64 (a : ℚ) (h : ¬ ((64 : ℚ) * 64 < a * 1.5)) :
    growDim a = 64 := by
  unfold growDim MIN_TEXTURE_SIZE
  apply growDimGo_stop
  push_cast
  exact h

theorem initialDim_ge (bones : List ModelBone) (ds : ℤ) :
    (64 : ℤ) ≤ (initialDim bones ds : ℤ) := by
  have := growDim_ge (((((sortedItems bones ds).map fun i => i.w * i.h).sum : ℤ) : ℚ))
  unfold MIN_TEXTURE_SIZE at this
  unfold initialDim
  exact_mod_cast this

theorem packCompute_sizes (bones : List ModelBone) (d : Density) :
    (initialDim bones (densityScaleOf d) : ℤ) ≤ (packCompute bones d).2.1 ∧
    (packFinal bones (densityScaleOf d)).textureH ≤ (packCompute bones d).2.2 := by
  unfold packCompute
  constructor
  · by_cases h1 : (packFinal bones (densityScaleOf d)).textureH >
        (initialDim bones (densityScaleOf d) : ℤ) <;> simp [h1] <;> omega
  · by_cases h1 : (packFinal bones (densityScaleOf d)).textureH >
        (initialDim bones (densityScaleOf d) : ℤ)
    · simp only [if_pos h1]
      by_cases h2 : (packFinal bones (densityScaleOf d)).textureH >
          (packFinal bones (densityScaleOf d)).textureH <;> simp [h2]
    · simp only [if_neg h1]
      by_cases h2 : (initialDim bones (densityScaleOf d) : ℤ) >
          (packFinal bones (densityScaleOf d)).textureH <;> simp [h2] <;> omega

theorem packFinal_bounds (bones : List ModelBone) (ds : ℤ)
    (hsz : ∀ i ∈ itemsOf bones ds, 1 ≤ i.w ∧ i.w ≤ 64 ∧ 1 ≤ i.h ∧ i.h ≤ 62) :
    PackBounds (initialDim bones ds) (packFinal bones ds) := by
  unfold packFinal
  apply packBounds_foldl _ _ _ (packInv_start _)
  · refine ⟨?_, by simp, ?_⟩
    · have := initialDim_ge bones ds
      simpa using this
    · intro r hr
      simp at hr
  · intro i hi
    have hm := hsz i (((List.perm_insertionSort _ _).mem_iff).mp hi)
    have := initialDim_ge bones ds
    exact ⟨hm.1, by omega, hm.2.2.1, hm.2.2.2⟩

/-- C5 (amended): when every footprint is at most 64 wide and 62 tall
(smaller than the minimum 64-pixel atlas side minus the row padding),
every assigned UV origin plus that cube's footprint lies inside
`[0, textureSize)` of the final recorded atlas size.  In general the
claim is false: vertical overflow doubles the atlas height at most once
per item and horizontal overflow never grows the atlas at all, so a
single oversized footprint is not accommodated — see the
counterexample. -/
theorem claim_C5_amended (m : MinecraftModel) (d : Density) (bd : BedrockData)
    (hty : m.type = ModelType.ENTITY) (hbd : m.bedrockData = some bd)
    (hsz : ∀ i ∈ itemsOf bd.bones (densityScaleOf d),
      1 ≤ i.w ∧ i.w ≤ 64 ∧ 1 ≤ i.h ∧ i.h ≤ 62) :
    ∀ b c cube, cubeAt m b c = some cube →
      ∃ p : ℤ × ℤ,
        cubeAt (packUVs m d) b c = some { cube with uv := some p } ∧
        (packUVs m d).bedrockData.map (fun bd2 => bd2.texture_size) =
          some (some ((packCompute bd.bones d).2.1, (packCompute bd.bones d).2.2)) ∧
        0 ≤ p.1 ∧ 0 ≤ p.2 ∧
        p.1 + (getBoxUVSize cube (densityScaleOf d)).w ≤ (packCompute bd.bones d).2.1 ∧
        p.2 + (getBoxUVSize cube (densityScaleOf d)).h ≤ (packCompute bd.bones d).2.2 := by
  intro b c cube hc
  obtain ⟨r, hrmem, hrid, hrw, hrh, hrout⟩ := packUVs_cubeAt m d bd b c cube hty hbd hc
  have hb := packFinal_bounds bd.bones (densityScaleOf d) hsz
  have hrmem2 : r ∈ (packFinal bd.bones (densityScaleOf d)).asg := by
    rw [← packCompute_fst]; exact hrmem
  obtain ⟨hx, hy, hxa, hya⟩ := hb.2.2 r hrmem2
  obtain ⟨hs1, hs2⟩ := packCompute_sizes bd.bones d
  refine ⟨r.2, hrout, ?_, hx, hy, ?_, ?_⟩
  · unfold packUVs
    rw [hty, hbd]
    rfl
  · rw [← hrw]; omega
  · rw [← hrh]; omega

theorem claim_C5_amended_witness :
    (Ex.model8.type = ModelType.ENTITY ∧
     Ex.model8.bedrockData = some (Ex.bd1 [Ex.cube8]) ∧
     (∀ i ∈ itemsOf (Ex.bd1 [Ex.cube8]).bones (densityScaleOf .d16x),
       1 ≤ i.w ∧ i.w ≤ 64 ∧ 1 ≤ i.h ∧ i.h ≤ 62)) ∧
    (∀ b c cube, cubeAt Ex.model8 b c = some cube →
      ∃ p : ℤ × ℤ,
        cubeAt (packUVs Ex.model8 .d16x) b c = some { cube with uv := some p } ∧
        (packUVs Ex.model8 .d16x).bedrockData.map (fun bd2 => bd2.texture_size) =
          some (some ((packCompute (Ex.bd1 [Ex.cube8]).bones .d16x).2.1,
            (packCompute (Ex.bd1 [Ex.cube8]).bones .d16x).2.2)) ∧
        0 ≤ p.1 ∧ 0 ≤ p.2 ∧
        p.1 + (getBoxUVSize cube (densityScaleOf .d16x)).w ≤
          (packCompute (Ex.bd1 [Ex.cube8]).bones .d16x).2.1 ∧
        p.2 + (getBoxUVSize cube (densityScaleOf .d16x)).h ≤
          (packCompute (Ex.bd1 [Ex.cube8]).bones .d16x).2.2) := by
  have hsz : ∀ i ∈ itemsOf (Ex.bd1 [Ex.cube8]).bones (densityScaleOf .d16x),
      1 ≤ i.w ∧ i.w ≤ 64 ∧ 1 ≤ i.h ∧ i.h ≤ 62 := by
    intro i hi
    norm_num [itemsOf, itemsOfBones, itemsOfCubes, getBoxUVSize, Ex.bd1, Ex.cube8,
      Ex.cube, densityScaleOf] at hi
    rw [hi]
    norm_num
  exact ⟨⟨rfl, rfl, hsz⟩,
    claim_C5_amended Ex.model8 .d16x (Ex.bd1 [Ex.cube8]) rfl rfl hsz⟩

/-- C5 (counterexample): the single cube `[1, 200, 1]` has box-UV
footprint 4 × 201.  The sizing heuristic keeps the atlas at 64, one
height-doubling grows it to 128, and in the recorded 128 × 128 atlas the
cube's UV origin `(0, 0)` plus its 201-pixel-tall footprint extends far
outside `[0, 128)`: AtlasOverflow is *not* always recoverable and the
containment invariant fails. -/
theorem claim_C5_counterexample :
    (packUVs Ex.modelTall .d16x).bedrockData.map (fun bd => bd.texture_size) =
      some (some (128, 128)) ∧
    (∃ o, cubeAt (packUVs Ex.modelTall .d16x) 0 0 = some o ∧
      o.uv = some (0, 0) ∧ (getBoxUVSize o (densityScaleOf .d16x)).h = 201) ∧
    ¬ ((0 : ℤ) + 201 ≤ 128) := by
  refine ⟨?_, ⟨{ Ex.cube 1 200 1 with uv := some (0, 0) }, ?_, rfl, ?_⟩, by norm_num⟩
  · norm_num [packUVs, packCompute, packFinal, sortedItems, itemsOf, itemsOfBones,
      itemsOfCubes, getBoxUVSize, initialDim, growDim_eq_64, packStep, PADDING,
      Ex.modelTall, Ex.model1, Ex.bd1, Ex.cube, densityScaleOf,
      List.insertionSort, List.orderedInsert]
  · norm_num [packUVs, packCompute, packFinal, sortedItems, itemsOf, itemsOfBones,
      itemsOfCubes, getBoxUVSize, initialDim, growDim_eq_64, packStep, PADDING,
      cubeAt, applyAsg, applyAsgBones, applyAsgCubes, Ex.modelTall, Ex.model1,
      Ex.bd1, Ex.cube, densityScaleOf, List.insertionSort, List.orderedInsert]
  · norm_num [getBoxUVSize, densityScaleOf, Ex.cube]

end TextureMapper

namespace TextureMapper

/-- C9 (amended): `packUVs` includes every cube of an ENTITY model in the
packing regardless of its size — a cube with a zero or negative size
component is *not* rejected and receives a UV assignment like any other;
the function has no error channel, so the degenerate-geometry condition
is never reported to the caller. -/
theorem claim_C9_amended (m : MinecraftModel) (d : Density) (bd : BedrockData)
    (hty : m.type = ModelType.ENTITY) (hbd : m.bedrockData = some bd) :
    ∀ b c cube, cubeAt m b c = some cube →
      ∃ p : ℤ × ℤ, cubeAt (packUVs m d) b c = some { cube with uv := some p } := by
  intro b c cube hc
  obtain ⟨r, _, _, _, _, hout⟩ := packUVs_cubeAt m d bd b c cube hty hbd hc
  exact ⟨r.2, hout⟩

theorem claim_C9_amended_witness :
    (Ex.modelZero.type = ModelType.ENTITY ∧
     Ex.modelZero.bedrockData = some (Ex.bd1 [Ex.cube 0 0 0]) ∧
     cubeAt Ex.modelZero 0 0 = some (Ex.cube 0 0 0)) ∧
    (∀ b c cube, cubeAt Ex.modelZero b c = some cube →
      ∃ p : ℤ × ℤ,
        cubeAt (packUVs Ex.modelZero .d16x) b c = some { cube with uv := some p }) :=
  ⟨⟨rfl, rfl, rfl⟩,
    claim_C9_amended Ex.modelZero .d16x (Ex.bd1 [Ex.cube 0 0 0]) rfl rfl⟩

/-- C9 (counterexample): the degenerate cube `[0, 0, 0]` is packed rather
than rejected — `packUVs` assigns it the UV origin `(0, 0)` and reports
nothing, where the claim requires it to receive no UV assignment. -/
theorem claim_C9_counterexample :
    (Ex.cube 0 0 0).size.1 ≤ 0 ∧
    cubeAt (packUVs Ex.modelZero .d16x) 0 0 =
      some { Ex.cube 0 0 0 with uv := some (0, 0) } := by
  constructor
  · norm_num [Ex.cube]
  · norm_num [packUVs, packCompute, packFinal, sortedItems, itemsOf, itemsOfBones,
      itemsOfCubes, getBoxUVSize, initialDim, growDim_eq_64, packStep, PADDING,
      cubeAt, applyAsg, applyAsgBones, applyAsgCubes, Ex.modelZero, Ex.model1,
      Ex.bd1, Ex.cube, densityScaleOf, List.insertionSort, List.orderedInsert]

end TextureMapper

namespace TextureMapper

theorem itemsOfCubes_applyAsg (asg : List (BoxPackerItem × ℤ × ℤ))
    (bIdx bIdx2 : ℕ) (ds : ℤ) :
    ∀ (cubes : List ModelCube) (cIdx cIdx2 : ℕ),
      itemsOfCubes bIdx ds cIdx (applyAsgCubes asg bIdx2 cIdx2 cubes) =
        itemsOfCubes bIdx ds cIdx cubes := by
  intro cubes
  induction cubes with
  | nil => intro cIdx cIdx2; simp [applyAsgCubes]
  | cons c0 rest ih =>
    intro cIdx cIdx2
    simp only [applyAsgCubes, itemsOfCubes]
    rw [ih (cIdx + 1) (cIdx2 + 1)]
    rcases hf : asg.find? (fun r => decide (r.1.id = (bIdx2, cIdx2))) with _ | r <;>
      simp [hf, getBoxUVSize]

theorem itemsOfBones_applyAsg (asg : List (BoxPackerItem × ℤ × ℤ)) (ds : ℤ) :
    ∀ (bones : List ModelBone) (bIdx bIdx2 : ℕ),
      itemsOfBones ds bIdx (applyAsgBones asg bIdx2 bones) =
        itemsOfBones ds bIdx bones := by
  intro bones
  induction bones with
  | nil => intro bIdx bIdx2; simp [applyAsgBones]
  | cons b0 rest ih =>
    intro bIdx bIdx2
    simp only [applyAsgBones, itemsOfBones]
    rw [ih (bIdx + 1) (bIdx2 + 1), itemsOfCubes_applyAsg]

theorem packCompute_applyAsg (bones : List ModelBone)
    (asg : List (BoxPackerItem × ℤ × ℤ)) (d : Density) :
    packCompute (applyAsg bones asg) d = packCompute bones d := by
  have h : ∀ ds : ℤ, itemsOf (applyAsg bones asg) ds = itemsOf bones ds := by
    intro ds
    unfold itemsOf applyAsg
    exact itemsOfBones_applyAsg asg ds bones 0 0
  unfold packCompute packFinal initialDim sortedItems
  simp only [h]

theorem applyAsgCubes_idem (asg : List (BoxPackerItem × ℤ × ℤ)) (bIdx : ℕ) :
    ∀ (cubes : List ModelCube) (cIdx : ℕ),
      applyAsgCubes asg bIdx cIdx (applyAsgCubes asg bIdx cIdx cubes) =
        applyAsgCubes asg bIdx cIdx cubes := by
  intro cubes
  induction cubes with
  | nil => intro cIdx; simp [applyAsgCubes]
  | cons c0 rest ih =>
    intro cIdx
    simp only [applyAsgCubes]
    rw [ih (cIdx + 1)]
    rcases hf : asg.find? (fun r => decide (r.1.id = (bIdx, cIdx))) with _ | r <;>
      simp [hf]

theorem applyAsgBones_idem (asg : List (BoxPackerItem × ℤ × ℤ)) :
    ∀ (bones : List ModelBone) (bIdx : ℕ),
      applyAsgBones asg bIdx (applyAsgBones asg bIdx bones) =
        applyAsgBones asg bIdx bones := by
  intro bones
  induction bones with
  | nil => intro bIdx; simp [applyAsgBones]
  | cons b0 rest ih =>
    intro bIdx
    simp only [applyAsgBones]
    rw [ih (bIdx + 1), applyAsgCubes_idem]

/-- C6: `packUVs` is deterministic — two runs on the same model and
density produce identical UV assignments and atlas size — and idempotent:
re-running it on its own (unchanged) output reproduces exactly the same
assignments and atlas size. -/
theorem claim_C6 (m : MinecraftModel) (d : Density) :
    packUVs m d = packUVs m d ∧ packUVs (packUVs m d) d = packUVs m d := by
  refine ⟨rfl, ?_⟩
  rcases m with ⟨ty, loader, ident, bdOpt⟩
  rcases ty with _ | _ | _ <;> rcases bdOpt with _ | bd <;>
    simp only [packUVs] <;> try rfl
  rw [packCompute_applyAsg]
  have hb : applyAsg (applyAsg bd.bones (packCompute bd.bones d).1)
      (packCompute bd.bones d).1 = applyAsg bd.bones (packCompute bd.bones d).1 := by
    unfold applyAsg
    exact applyAsgBones_idem _ _ _
  rw [hb]

end TextureMapper

namespace TextureMapper

theorem stripCube_applyAsgCubes (asg : List (BoxPackerItem × ℤ × ℤ)) (bIdx : ℕ) :
    ∀ (cubes : List ModelCube) (cIdx : ℕ),
      (applyAsgCubes asg bIdx cIdx cubes).map stripCubeUV =
        cubes.map stripCubeUV := by
  intro cubes
  induction cubes with
  | nil => intro cIdx; simp [applyAsgCubes]
  | cons c0 rest ih =>
    intro cIdx
    simp only [applyAsgCubes, List.map_cons]
    rw [ih (cIdx + 1)]
    rcases hf : asg.find? (fun r => decide (r.1.id = (bIdx, cIdx))) with _ | r <;>
      simp [hf, stripCubeUV]

theorem stripBones_applyAsgBones (asg : List (BoxPackerItem × ℤ × ℤ)) :
    ∀ (bones : List ModelBone) (bIdx : ℕ),
      (applyAsgBones asg bIdx bones).map
          (fun bone => { bone with cubes := bone.cubes.map stripCubeUV }) =
        bones.map (fun bone => { bone with cubes := bone.cubes.map stripCubeUV }) := by
  intro bones
  induction bones with
  | nil => intro bIdx; simp [applyAsgBones]
  | cons b0 rest ih =>
    intro bIdx
    simp only [applyAsgBones, List.map_cons]
    rw [ih (bIdx + 1)]
    simp only [List.cons.injEq, and_true]
    simp [stripCube_applyAsgCubes]

/-- C7 (amended): `packUVs` and `scaleModelUVs` change nothing but cube
`uv` fields and the recorded `texture_size` — every other field of every
bone and cube survives both transforms unchanged — and the returned model
is a freshly built value.  However, `packUVs` writes its UV assignments
into the *input* model's cubes before taking the clone: after the call
the input object carries exactly the output's bone tree (only its
`texture_size` is left untouched), contrary to the claim's "leaves its
input model unchanged".  `scaleModelUVs` clones before mutating and does
leave its input intact. -/
theorem claim_C7_amended (m : MinecraftModel) (d : Density) (newW newH : ℤ) :
    stripUVModel (packUVs m d) = stripUVModel m ∧
    stripUVModel (scaleModelUVs m newW newH) = stripUVModel m ∧
    (packUVsInputAfter m d).bedrockData.map (fun bd => bd.bones) =
      (packUVs m d).bedrockData.map (fun bd => bd.bones) ∧
    (packUVsInputAfter m d).bedrockData.map (fun bd => bd.texture_size) =
      m.bedrockData.map (fun bd => bd.texture_size) := by
  rcases m with ⟨ty, loader, ident, bdOpt⟩
  refine ⟨?_, ?_, ?_, ?_⟩
  · rcases ty with _ | _ | _ <;> rcases bdOpt with _ | bd <;>
      simp only [packUVs] <;> try rfl
    simp only [stripUVModel, Option.map_some', MinecraftModel.mk.injEq,
      Option.some.injEq, BedrockData.mk.injEq, true_and]
    unfold applyAsg
    exact stripBones_applyAsgBones _ _ _
  · rcases bdOpt with _ | bd
    · simp [scaleModelUVs]
    · simp only [scaleModelUVs]
      by_cases hne : (bd.texture_size.getD ((MIN_TEXTURE_SIZE : ℤ), (MIN_TEXTURE_SIZE : ℤ))).1 = newW ∧
          (bd.texture_size.getD ((MIN_TEXTURE_SIZE : ℤ), (MIN_TEXTURE_SIZE : ℤ))).2 = newH
      · rw [if_pos]
        exact hne
      · rw [if_neg hne]
        simp only [stripUVModel, Option.map_some', MinecraftModel.mk.injEq,
          Option.some.injEq, BedrockData.mk.injEq, true_and]
        rw [List.map_map]
        apply List.map_congr_left
        intro bone _
        simp only [Function.comp_apply, ModelBone.mk.injEq, true_and, and_true]
        rw [List.map_map]
        apply List.map_congr_left
        intro cube _
        rcases huv : cube.uv with _ | p <;>
          simp [huv, stripCubeUV, Function.comp]
  · rcases ty with _ | _ | _ <;> rcases bdOpt with _ | bd <;> rfl
  · rcases ty with _ | _ | _ <;> rcases bdOpt with _ | bd <;> rfl

/-- C7 (counterexample): after `packUVs` returns, the input model has been
mutated — the cube that went in with no UV now carries the assigned UV
origin `(0, 0)` on the input object itself. -/
theorem claim_C7_counterexample :
    cubeAt Ex.model8 0 0 = some Ex.cube8 ∧ Ex.cube8.uv = none ∧
    cubeAt (packUVsInputAfter Ex.model8 .d16x) 0 0 =
      some { Ex.cube8 with uv := some (0, 0) } ∧
    packUVsInputAfter Ex.model8 .d16x ≠ Ex.model8 := by
  have h3 : cubeAt (packUVsInputAfter Ex.model8 .d16x) 0 0 =
      some { Ex.cube8 with uv := some (0, 0) } := by
    norm_num [packUVsInputAfter, packCompute, packFinal, sortedItems, itemsOf,
      itemsOfBones, itemsOfCubes, getBoxUVSize, initialDim, growDim_eq_64,
      packStep, PADDING, cubeAt, applyAsg, applyAsgBones, applyAsgCubes,
      Ex.model8, Ex.model1, Ex.bd1, Ex.cube8, Ex.cube, densityScaleOf,
      List.insertionSort, List.orderedInsert]
  refine ⟨rfl, rfl, h3, ?_⟩
  intro heq
  rw [heq] at h3
  have : some { Ex.cube8 with uv := some ((0 : ℤ), (0 : ℤ)) } = some Ex.cube8 := by
    rw [← h3]
    rfl
  simp [Ex.cube8, Ex.cube] at this

end TextureMapper

namespace HyConv

theorem belongsTo_orphan_false (orphan : ModelBone) (p : String)
    (pid : Option String) (hpar : orphan.parent = some p) (hp : p ≠ "")
    (hpid : pid ≠ some p) : belongsTo pid orphan = false := by
  rcases pid with _ | q
  · simp [belongsTo, strTruthy, hpar, hp]
  · by_cases hq : q = ""
    · subst hq
      simp [belongsTo, strTruthy, hpar, hp]
    · have hqp : ¬ (p = q) := by
        intro he
        exact hpid (by rw [he])
      simp [belongsTo, strTruthy, hq, hpar, hqp]

theorem filter_drop_orphan (bones₁ bones₂ : List ModelBone)
    (orphan : ModelBone) (p : String) (pid : Option String)
    (hpar : orphan.parent = some p) (hp : p ≠ "") (hpid : pid ≠ some p) :
    (bones₁ ++ orphan :: bones₂).filter (belongsTo pid) =
      (bones₁ ++ bones₂).filter (belongsTo pid) := by
  rw [List.filter_append, List.filter_append, List.filter_cons,
    belongsTo_orphan_false orphan p pid hpar hp hpid]
  simp

/-- C10 (amended): a bone whose `parent` names no bone in the model is
silently dropped by the export, together with its whole subtree: removing
it from the bone list does not change `buildHytaleNodeTree`'s output at
all, at any fuel, parent id (other than the dangling name), pivot and
counter.  No error is raised and the remaining bones are exported as
usual — the conversion is not all-or-nothing. -/
theorem claim_C10_amended (bones₁ bones₂ : List ModelBone)
    (orphan : ModelBone) (p : String) (fuel : ℕ) (pid : Option String)
    (pp : Vec3) (ts : ℝ × ℝ) (ctr : ℕ)
    (hpar : orphan.parent = some p) (hp : p ≠ "")
    (hnames : ∀ b ∈ bones₁ ++ bones₂, b.name ≠ p) (hpid : pid ≠ some p) :
    buildHytaleNodeTree (bones₁ ++ orphan :: bones₂) fuel pid pp ts ctr =
      buildHytaleNodeTree (bones₁ ++ bones₂) fuel pid pp ts ctr := by
  have listStep : ∀ fuel₀ : ℕ,
      (∀ (pid₀ : Option String) (pp₀ : Vec3) (ts₀ : ℝ × ℝ) (ctr₀ : ℕ),
        pid₀ ≠ some p →
        buildHytaleNodeTree (bones₁ ++ orphan :: bones₂) fuel₀ pid₀ pp₀ ts₀ ctr₀ =
          buildHytaleNodeTree (bones₁ ++ bones₂) fuel₀ pid₀ pp₀ ts₀ ctr₀) →
      ∀ (cur : List ModelBone) (pp₀ : Vec3) (ts₀ : ℝ × ℝ) (ctr₀ : ℕ),
        (∀ b ∈ cur, b.name ≠ p) →
        buildBoneList (bones₁ ++ orphan :: bones₂) fuel₀ cur pp₀ ts₀ ctr₀ =
          buildBoneList (bones₁ ++ bones₂) fuel₀ cur pp₀ ts₀ ctr₀ := by
    intro fuel₀ htree cur
    induction cur with
    | nil => intro pp₀ ts₀ ctr₀ _; simp [buildBoneList]
    | cons b rest ih =>
      intro pp₀ ts₀ ctr₀ hcur
      have hbname : (some b.name : Option String) ≠ some p := by
        simp only [ne_eq, Option.some.injEq]
        exact hcur b (by simp)
      simp only [buildBoneList]
      rw [htree (some b.name) b.pivot ts₀ _ hbname,
        ih pp₀ ts₀ _ (fun j hj => hcur j (by simp [hj]))]
  have main : ∀ fuel₀ : ℕ, ∀ (pid₀ : Option String) (pp₀ : Vec3)
      (ts₀ : ℝ × ℝ) (ctr₀ : ℕ), pid₀ ≠ some p →
      buildHytaleNodeTree (bones₁ ++ orphan :: bones₂) fuel₀ pid₀ pp₀ ts₀ ctr₀ =
        buildHytaleNodeTree (bones₁ ++ bones₂) fuel₀ pid₀ pp₀ ts₀ ctr₀ := by
    intro fuel₀
    induction fuel₀ with
    | zero => intro pid₀ pp₀ ts₀ ctr₀ _; simp [buildHytaleNodeTree]
    | succ n ihn =>
      intro pid₀ pp₀ ts₀ ctr₀ hpid₀
      simp only [buildHytaleNodeTree, Nat.succ_ne_zero, if_false,
        Nat.add_sub_cancel]
      rw [filter_drop_orphan bones₁ bones₂ orphan p pid₀ hpar hp hpid₀]
      apply listStep n ihn
      intro b hb
      exact hnames b (List.mem_of_mem_filter hb)
  exact main fuel pid pp ts ctr hpid

theorem claim_C10_amended_witness :
    (Ex.boneOrphan.parent = some "ghost" ∧ ("ghost" : String) ≠ "" ∧
      (∀ b ∈ [Ex.boneRootC] ++ ([] : List ModelBone), b.name ≠ "ghost") ∧
      (none : Option String) ≠ some "ghost") ∧
    buildHytaleNodeTree ([Ex.boneRootC] ++ Ex.boneOrphan :: []) 3 none
        ⟨0, 0, 0⟩ (64, 64) 0 =
      buildHytaleNodeTree ([Ex.boneRootC] ++ []) 3 none ⟨0, 0, 0⟩ (64, 64) 0 := by
  have hnames : ∀ b ∈ [Ex.boneRootC] ++ ([] : List ModelBone), b.name ≠ "ghost" := by
    intro b hb
    simp only [List.append_nil, List.mem_singleton] at hb
    subst hb
    simp [Ex.boneRootC]
  exact ⟨⟨rfl, by simp, hnames, by simp⟩,
    claim_C10_amended [Ex.boneRootC] [] Ex.boneOrphan "ghost" 3 none
      ⟨0, 0, 0⟩ (64, 64) 0 rfl (by simp) hnames (by simp)⟩

end HyConv

namespace HyConv

/-- C10 (counterexample): the two-bone model `[root, orphan]`, where
`orphan.parent = "ghost"` matches no bone, is not rejected: the export
runs through and returns the partial tree containing just `root`, with
the orphan silently dropped — there is no structural error and the output
is partial, where the claim requires all-or-nothing rejection. -/
theorem claim_C10_counterexample :
    Ex.boneOrphan ∈ Ex.bonesOrphan ∧
    Ex.boneOrphan.parent = some "ghost" ∧
    (∀ b ∈ Ex.bonesOrphan, b.name ≠ "ghost") ∧
    (exportNodes Ex.bonesOrphan (64, 64)).map (fun n => n.name) = ["root"] := by
  refine ⟨by simp [Ex.bonesOrphan], rfl, ?_, ?_⟩
  · intro b hb
    simp only [Ex.bonesOrphan, List.mem_cons, List.mem_singleton] at hb
    rcases hb with hb | hb | hb
    · rw [hb]; simp [Ex.boneRootC]
    · rw [hb]; simp [Ex.boneOrphan]
    · simp at hb
  · show ((buildHytaleNodeTree Ex.bonesOrphan (Ex.bonesOrphan.length + 1) none
      ⟨0, 0, 0⟩ (64, 64) 0).1).map (fun n => n.name) = ["root"]
    have hd1 : decide (("ghost" : String) = "") = false := rfl
    have hd2 : decide (("ghost" : String) = "root") = false := rfl
    have hd3 : decide ((none : Option String) = some "root") = false := rfl
    have hd4 : decide (("root" : String) = "") = false := rfl
    have hif : (("root" : String) = "") = False := by simp
    norm_num [Ex.bonesOrphan, Ex.boneRootC, Ex.boneOrphan, buildHytaleNodeTree,
      buildBoneList, buildCubeNodes, buildAttNodes, belongsTo, strTruthy,
      List.filter, hd1, hd2, hd3, hd4, hif]

end HyConv

namespace HyConv

theorem etq_m31 (x y z : ℝ) :
    2 * ((eulerToQuaternion x y z).x * (eulerToQuaternion x y z).z -
      (eulerToQuaternion x y z).w * (eulerToQuaternion x y z).y) =
    -Real.sin (degToRad y) := by
  have h1 := Real.sin_sq_add_cos_sq (degToRad x / 2)
  have h3 := Real.sin_sq_add_cos_sq (degToRad z / 2)
  have hs2 : Real.sin (degToRad y) =
      2 * Real.sin (degToRad y / 2) * Real.cos (degToRad y / 2) := by
    rw [← Real.sin_two_mul]
    congr 1
    ring
  rw [hs2]
  simp only [eulerToQuaternion]
  linear_combination (-2 * Real.cos (degToRad y / 2) * Real.sin (degToRad y / 2) *
      (Real.sin (degToRad z / 2) ^ 2 + Real.cos (degToRad z / 2) ^ 2)) * h1 +
    (-2 * Real.cos (degToRad y / 2) * Real.sin (degToRad y / 2)) * h3

theorem etq_m32 (x y z : ℝ) :
    2 * ((eulerToQuaternion x y z).y * (eulerToQuaternion x y z).z +
      (eulerToQuaternion x y z).w * (eulerToQuaternion x y z).x) =
    Real.sin (degToRad x) * Real.cos (degToRad y) := by
  have h3 := Real.sin_sq_add_cos_sq (degToRad z / 2)
  have hsx : Real.sin (degToRad x) =
      2 * Real.sin (degToRad x / 2) * Real.cos (degToRad x / 2) := by
    rw [← Real.sin_two_mul]
    congr 1
    ring
  have hcy : Real.cos (degToRad y) =
      Real.cos (degToRad y / 2) ^ 2 - Real.sin (degToRad y / 2) ^ 2 := by
    rw [← Real.cos_two_mul']
    congr 1
    ring
  rw [hsx, hcy]
  simp only [eulerToQuaternion]
  linear_combination (2 * Real.sin (degToRad x / 2) * Real.cos (degToRad x / 2) *
      (Real.cos (degToRad y / 2) ^ 2 - Real.sin (degToRad y / 2) ^ 2)) * h3

theorem etq_m33 (x y z : ℝ) :
    1 - 2 * ((eulerToQuaternion x y z).x * (eulerToQuaternion x y z).x +
      (eulerToQuaternion x y z).y * (eulerToQuaternion x y z).y) =
    Real.cos (degToRad x) * Real.cos (degToRad y) := by
  have h1 := Real.sin_sq_add_cos_sq (degToRad x / 2)
  have h2 := Real.sin_sq_add_cos_sq (degToRad y / 2)
  have h3 := Real.sin_sq_add_cos_sq (degToRad z / 2)
  have hcx : Real.cos (degToRad x) =
      Real.cos (degToRad x / 2) ^ 2 - Real.sin (degToRad x / 2) ^ 2 := by
    rw [← Real.cos_two_mul']
    congr 1
    ring
  have hcy : Real.cos (degToRad y) =
      Real.cos (degToRad y / 2) ^ 2 - Real.sin (degToRad y / 2) ^ 2 := by
    rw [← Real.cos_two_mul']
    congr 1
    ring
  rw [hcx, hcy]
  simp only [eulerToQuaternion]
  linear_combination
    (-(Real.sin (degToRad y / 2) ^ 2 + Real.cos (degToRad y / 2) ^ 2)) * h1 +
    (-1 : ℝ) * h2 +
    (-2 * (Real.sin (degToRad x / 2) ^ 2 * Real.cos (degToRad y / 2) ^ 2 +
      Real.cos (degToRad x / 2) ^ 2 * Real.sin (degToRad y / 2) ^ 2)) * h3

theorem etq_m21 (x y z : ℝ) :
    2 * ((eulerToQuaternion x y z).x * (eulerToQuaternion x y z).y +
      (eulerToQuaternion x y z).w * (eulerToQuaternion x y z).z) =
    Real.cos (degToRad y) * Real.sin (degToRad z) := by
  have h1 := Real.sin_sq_add_cos_sq (degToRad x / 2)
  have hsz : Real.sin (degToRad z) =
      2 * Real.sin (degToRad z / 2) * Real.cos (degToRad z / 2) := by
    rw [← Real.sin_two_mul]
    congr 1
    ring
  have hcy : Real.cos (degToRad y) =
      Real.cos (degToRad y / 2) ^ 2 - Real.sin (degToRad y / 2) ^ 2 := by
    rw [← Real.cos_two_mul']
    congr 1
    ring
  rw [hsz, hcy]
  simp only [eulerToQuaternion]
  linear_combination (2 * Real.cos (degToRad z / 2) * Real.sin (degToRad z / 2) *
      (Real.cos (degToRad y / 2) ^ 2 - Real.sin (degToRad y / 2) ^ 2)) * h1

theorem etq_m11 (x y z : ℝ) :
    1 - 2 * ((eulerToQuaternion x y z).y * (eulerToQuaternion x y z).y +
      (eulerToQuaternion x y z).z * (eulerToQuaternion x y z).z) =
    Real.cos (degToRad y) * Real.cos (degToRad z) := by
  have h1 := Real.sin_sq_add_cos_sq (degToRad x / 2)
  have h2 := Real.sin_sq_add_cos_sq (degToRad y / 2)
  have h3 := Real.sin_sq_add_cos_sq (degToRad z / 2)
  have hcy : Real.cos (degToRad y) =
      Real.cos (degToRad y / 2) ^ 2 - Real.sin (degToRad y / 2) ^ 2 := by
    rw [← Real.cos_two_mul']
    congr 1
    ring
  have hcz : Real.cos (degToRad z) =
      Real.cos (degToRad z / 2) ^ 2 - Real.sin (degToRad z / 2) ^ 2 := by
    rw [← Real.cos_two_mul']
    congr 1
    ring
  rw [hcy, hcz]
  simp only [eulerToQuaternion]
  linear_combination
    (-2 * (Real.sin (degToRad y / 2) ^ 2 * Real.cos (degToRad z / 2) ^ 2 +
      Real.cos (degToRad y / 2) ^ 2 * Real.sin (degToRad z / 2) ^ 2)) * h1 +
    (-(Real.sin (degToRad z / 2) ^ 2 + Real.cos (degToRad z / 2) ^ 2)) * h2 +
    (-1 : ℝ) * h3

end HyConv

namespace HyConv

theorem atan2_sin_cos_mul (k t : ℝ) (hk : 0 < k) (ht1 : -Real.pi < t)
    (ht2 : t ≤ Real.pi) :
    atan2 (Real.sin t * k) (Real.cos t * k) = t := by
  have hpi := Real.pi_pos
  rcases lt_trichotomy (Real.cos t) 0 with hc | hc | hc
  · have hx : Real.cos t * k < 0 := mul_neg_of_neg_of_pos hc hk
    have harg : Real.sin t * k / (Real.cos t * k) = Real.sin t / Real.cos t := by
      rw [mul_div_mul_right _ _ (ne_of_gt hk)]
    unfold atan2
    rw [if_neg (by linarith), if_pos hx, harg]
    rcases le_or_lt 0 t with ht0 | ht0
    · have hgt : Real.pi / 2 < t := by
        by_contra hle
        push_neg at hle
        have := Real.cos_nonneg_of_mem_Icc (Set.mem_Icc.mpr ⟨by linarith, hle⟩)
        linarith
      have hsin : 0 ≤ Real.sin t := Real.sin_nonneg_of_nonneg_of_le_pi ht0 ht2
      rw [if_pos (mul_nonneg hsin (le_of_lt hk))]
      have htan : Real.sin t / Real.cos t = Real.tan (t - Real.pi) := by
        rw [Real.tan_periodic.sub_eq, Real.tan_eq_sin_div_cos]
      rw [htan, Real.arctan_tan (by linarith) (by linarith)]
      ring
    · have hlt : t < -(Real.pi / 2) := by
        by_contra hle
        push_neg at hle
        have := Real.cos_nonneg_of_mem_Icc (Set.mem_Icc.mpr ⟨hle, by linarith⟩)
        linarith
      have hsin : Real.sin t < 0 := Real.sin_neg_of_neg_of_neg_pi_lt ht0 ht1
      rw [if_neg (not_le.mpr (mul_neg_of_neg_of_pos hsin hk))]
      have htan : Real.sin t / Real.cos t = Real.tan (t + Real.pi) := by
        rw [Real.tan_periodic t, Real.tan_eq_sin_div_cos]
      rw [htan, Real.arctan_tan (by linarith) (by linarith)]
      ring
  · rw [Real.cos_eq_zero_iff] at hc
    obtain ⟨n, hn⟩ := hc
    have hn1 : (-1 : ℤ) ≤ n := by
      by_contra hcon
      push_neg at hcon
      have h2le : (n : ℝ) ≤ -2 := by exact_mod_cast (by omega : n ≤ -2)
      have hfac : (2 * (n : ℝ) + 1) * Real.pi ≤ (-3) * Real.pi := by
        apply mul_le_mul_of_nonneg_right _ (le_of_lt hpi)
        linarith
      rw [hn] at ht1
      linarith
    have hn0 : n ≤ 0 := by
      by_contra hcon
      push_neg at hcon
      have h1le : (1 : ℝ) ≤ (n : ℝ) := by exact_mod_cast hcon
      have hfac : (3 : ℝ) * Real.pi ≤ (2 * (n : ℝ) + 1) * Real.pi := by
        apply mul_le_mul_of_nonneg_right _ (le_of_lt hpi)
        linarith
      rw [hn] at ht2
      linarith
    interval_cases n
    · have ht : t = -(Real.pi / 2) := by
        rw [hn]
        push_cast
        ring
      have hy : Real.sin t * k = -k := by
        rw [ht, Real.sin_neg, Real.sin_pi_div_two]
        ring
      have hx0 : Real.cos t * k = 0 := by
        rw [ht, Real.cos_neg, Real.cos_pi_div_two]
        ring
      rw [hy, hx0, ht]
      unfold atan2
      rw [if_neg (lt_irrefl 0), if_neg (lt_irrefl 0),
        if_neg (by linarith : ¬ (0 : ℝ) < -k), if_pos (by linarith : -k < (0:ℝ))]
    · have ht : t = Real.pi / 2 := by
        rw [hn]
        push_cast
        ring
      have hy : Real.sin t * k = k := by
        rw [ht, Real.sin_pi_div_two]
        ring
      have hx0 : Real.cos t * k = 0 := by
        rw [ht, Real.cos_pi_div_two]
        ring
      rw [hy, hx0, ht]
      unfold atan2
      rw [if_neg (lt_irrefl 0), if_neg (lt_irrefl 0), if_pos hk]
  · have hlt : t < Real.pi / 2 := by
      by_contra hle
      push_neg at hle
      have := Real.cos_nonpos_of_pi_div_two_le_of_le hle (by linarith)
      linarith
    have hgt : -(Real.pi / 2) < t := by
      by_contra hle
      push_neg at hle
      have h1 : Real.pi / 2 ≤ -t := by linarith
      have h2 : -t ≤ Real.pi + Real.pi / 2 := by linarith
      have := Real.cos_nonpos_of_pi_div_two_le_of_le h1 h2
      rw [Real.cos_neg] at this
      linarith
    have hx : 0 < Real.cos t * k := mul_pos hc hk
    have harg : Real.sin t * k / (Real.cos t * k) = Real.sin t / Real.cos t := by
      rw [mul_div_mul_right _ _ (ne_of_gt hk)]
    unfold atan2
    rw [if_pos hx, harg, ← Real.tan_eq_sin_div_cos, Real.arctan_tan hgt hlt]

theorem radToDeg_degToRad (t : ℝ) : radToDeg (degToRad t) = t := by
  unfold radToDeg degToRad
  field_simp

end HyConv

namespace HyConv

theorem degToRad_lt_iff (a b : ℝ) (h : a < b) : degToRad a < degToRad b := by
  have hscale : (0 : ℝ) < Real.pi / 180 := by positivity
  exact mul_lt_mul_of_pos_right h hscale

theorem degToRad_le_iff (a b : ℝ) (h : a ≤ b) : degToRad a ≤ degToRad b := by
  have hscale : (0 : ℝ) < Real.pi / 180 := by positivity
  exact mul_le_mul_of_nonneg_right h (le_of_lt hscale)

theorem rtDeg_eq (v : Vec3) (h : RotOK v) : rtDeg v = v := by
  obtain ⟨⟨hx1, hx2⟩, ⟨hy1, hy2⟩, ⟨hz1, hz2⟩, hguard⟩ := h
  have hpi := Real.pi_pos
  have hdx1 : -Real.pi < degToRad v.x := by
    have := degToRad_lt_iff _ _ hx1
    unfold degToRad at this ⊢
    linarith [this]
  have hdx2 : degToRad v.x ≤ Real.pi := by
    have := degToRad_le_iff _ _ hx2
    unfold degToRad at this ⊢
    linarith [this]
  have hdy1 : -(Real.pi / 2) < degToRad v.y := by
    have := degToRad_lt_iff _ _ hy1
    unfold degToRad at this ⊢
    linarith [this]
  have hdy2 : degToRad v.y < Real.pi / 2 := by
    have := degToRad_lt_iff _ _ hy2
    unfold degToRad at this ⊢
    linarith [this]
  have hdz1 : -Real.pi < degToRad v.z := by
    have := degToRad_lt_iff _ _ hz1
    unfold degToRad at this ⊢
    linarith [this]
  have hdz2 : degToRad v.z ≤ Real.pi := by
    have := degToRad_le_iff _ _ hz2
    unfold degToRad at this ⊢
    linarith [this]
  have hcy : 0 < Real.cos (degToRad v.y) :=
    Real.cos_pos_of_mem_Ioo ⟨hdy1, hdy2⟩
  have hm31 := etq_m31 v.x v.y v.z
  have hm32 := etq_m32 v.x v.y v.z
  have hm33 := etq_m33 v.x v.y v.z
  have hm21 := etq_m21 v.x v.y v.z
  have hm11 := etq_m11 v.x v.y v.z
  show quaternionToEulerDeg (eulerToQuaternion v.x v.y v.z) = v
  simp only [quaternionToEulerDeg, quaternionToEulerZYX]
  rw [hm31, hm32, hm33, hm21, hm11]
  have hgabs : |(-Real.sin (degToRad v.y))| < 0.9999999 := by
    rw [abs_neg]
    exact hguard
  rw [if_pos hgabs]
  have hclamp : clampR (-Real.sin (degToRad v.y)) (-1) 1 =
      -Real.sin (degToRad v.y) := by
    unfold clampR
    have hs1 : Real.sin (degToRad v.y) ≤ 1 := Real.sin_le_one _
    have hs2 : -1 ≤ Real.sin (degToRad v.y) := Real.neg_one_le_sin _
    rw [min_eq_right (by linarith), max_eq_right (by linarith)]
  rw [hclamp, neg_neg,
    Real.arcsin_sin (by linarith) (by linarith),
    atan2_sin_cos_mul _ _ hcy hdx1 hdx2,
    mul_comm (Real.cos (degToRad v.y)) (Real.sin (degToRad v.z)),
    mul_comm (Real.cos (degToRad v.y)) (Real.cos (degToRad v.z)),
    atan2_sin_cos_mul _ _ hcy hdz1 hdz2,
    radToDeg_degToRad, radToDeg_degToRad, radToDeg_degToRad]

end HyConv

namespace HyConv

theorem traverseList_append (xs ys : List HytaleNode) (pn : Option String)
    (pp : Vec3) : ∀ bs : List ModelBone,
    traverseList (xs ++ ys) pn pp bs =
      traverseList ys pn pp (traverseList xs pn pp bs) := by
  induction xs with
  | nil =>
    intro bs
    simp [traverseList]
  | cons n rest ih =>
    intro bs
    simp only [List.cons_append, traverseList]
    exact ih _

theorem getBone_append (bs0 bs1 : List ModelBone) (nm : String)
    (h : nm ∉ bs0.map fun b => b.name) :
    getBone (bs0 ++ bs1) nm = getBone bs1 nm := by
  induction bs0 with
  | nil => rfl
  | cons b rest ih =>
    simp only [List.map_cons, List.mem_cons, not_or] at h
    simp only [List.cons_append, getBone]
    rw [List.find?_cons_of_neg _ (by simpa using fun he => h.1 he.symm)]
    exact ih h.2

theorem getBone_last (bs0 : List ModelBone) (b : ModelBone)
    (h : b.name ∉ bs0.map fun x => x.name) :
    getBone (bs0 ++ [b]) b.name = some b := by
  rw [getBone_append bs0 [b] b.name h]
  unfold getBone
  rw [List.find?_cons_of_pos _ (by simp)]

theorem pushCube_last (bs0 : List ModelBone) (b : ModelBone) (cube : ModelCube)
    (h : b.name ∉ bs0.map fun x => x.name) :
    pushCube b.name cube (bs0 ++ [b]) =
      bs0 ++ [{ b with cubes := b.cubes ++ [cube] }] := by
  induction bs0 with
  | nil =>
    simp [pushCube]
  | cons x rest ih =>
    simp only [List.map_cons, List.mem_cons, not_or] at h
    simp only [List.cons_append, pushCube, List.append_eq]
    rw [if_neg (fun he => h.1 he.symm)]
    rw [ih h.2]

theorem pushAtt_last (bs0 : List ModelBone) (b : ModelBone) (att : ModelAttachment)
    (h : b.name ∉ bs0.map fun x => x.name) :
    pushAtt b.name att (bs0 ++ [b]) =
      bs0 ++ [{ b with attachments := some (b.attachments.getD [] ++ [.obj att]) }] := by
  induction bs0 with
  | nil =>
    simp [pushAtt]
  | cons x rest ih =>
    simp only [List.map_cons, List.mem_cons, not_or] at h
    simp only [List.cons_append, pushAtt, List.append_eq]
    rw [if_neg (fun he => h.1 he.symm)]
    rw [ih h.2]

theorem expectedTree_names (bones : List ModelBone) : ∀ (F : ℕ) (pid : Option String),
    (expectedTree bones F pid).map (fun b => b.name) = collectNames bones F pid := by
  intro F
  induction F with
  | zero =>
    intro pid
    simp [expectedTree, collectNames]
  | succ n ih =>
    intro pid
    simp only [expectedTree, collectNames, List.map_flatMap, List.map_cons, ih,
      reconBone]

end HyConv

namespace HyConv

theorem traverse_boxNode (node : HytaleNode) (p : Vec3) (bs0 : List ModelBone)
    (b : ModelBone) (nm : String) (hb : b.name = nm) (hbn : nm ≠ "")
    (hdisj : nm ∉ bs0.map fun x => x.name)
    (htype : node.shape.type = ShapeType.box) :
    traverse node (some nm) p (bs0 ++ [b]) =
      bs0 ++ [{ b with cubes := b.cubes ++
        [importCube node ⟨p.x + node.position.x, p.y + node.position.y,
          p.z + node.position.z⟩] }] := by
  subst hb
  have hg : getBone (bs0 ++ [b]) b.name = some b := getBone_last bs0 b hdisj
  simp only [traverse, Option.getD_some]
  rw [if_pos ⟨htype, by simp [strTruthy, hbn], by rw [hg]; rfl⟩]
  exact pushCube_last bs0 b _ hdisj

theorem traverse_pieceNode (node : HytaleNode) (p : Vec3) (bs0 : List ModelBone)
    (b : ModelBone) (nm : String) (hb : b.name = nm) (hbn : nm ≠ "")
    (hdisj : nm ∉ bs0.map fun x => x.name)
    (htype : node.shape.type ≠ ShapeType.box)
    (hpiece : node.shape.settings.isPiece = some true) :
    traverse node (some nm) p (bs0 ++ [b]) =
      bs0 ++ [{ b with attachments := some (b.attachments.getD [] ++
        [.obj { name := node.name, position := node.position }]) }] := by
  subst hb
  have hg : getBone (bs0 ++ [b]) b.name = some b := getBone_last bs0 b hdisj
  simp only [traverse, Option.getD_some]
  rw [if_neg (fun hcon => htype hcon.1),
    if_pos ⟨hpiece, by simp [strTruthy, hbn], by rw [hg]; rfl⟩]
  exact pushAtt_last bs0 b _ hdisj

theorem traverse_boneNode (node : HytaleNode) (pid : Option String) (pp : Vec3)
    (bs0 : List ModelBone)
    (htype : node.shape.type ≠ ShapeType.box)
    (hpiece : node.shape.settings.isPiece ≠ some true) :
    traverse node pid pp bs0 =
      traverseList node.children (some node.name)
        ⟨pp.x + node.position.x, pp.y + node.position.y, pp.z + node.position.z⟩
        (bs0 ++ [{ name := node.name, parent := pid
                   pivot := ⟨pp.x + node.position.x, pp.y + node.position.y,
                     pp.z + node.position.z⟩
                   rotation := some (quaternionToEulerDeg node.orientation)
                   cubes := []
                   attachments := some [] }]) := by
  simp only [traverse]
  rw [if_neg (fun hcon => htype hcon.1), if_neg (fun hcon => hpiece hcon.1),
    if_neg (fun hcon => htype hcon.1)]

theorem importCube_reconCube (c : ModelCube) (p : Vec3) (ts : ℝ × ℝ)
    (nid : ℕ) (nm : String) :
    importCube
      { id := nid, name := nm, children := []
        position := ⟨c.origin.x + c.size.x / 2 - p.x,
          c.origin.y + c.size.y / 2 - p.y, c.origin.z + c.size.z / 2 - p.z⟩
        orientation := eulerToQuaternion (c.rotation.getD ⟨0, 0, 0⟩).x
          (c.rotation.getD ⟨0, 0, 0⟩).y (c.rotation.getD ⟨0, 0, 0⟩).z
        shape :=
          { type := ShapeType.box
            offset := ⟨0, 0, 0⟩
            settings := { isPiece := none, size := some c.size }
            textureLayout := some (getTextureLayout c ts.1 ts.2) } }
      ⟨p.x + (c.origin.x + c.size.x / 2 - p.x),
        p.y + (c.origin.y + c.size.y / 2 - p.y),
        p.z + (c.origin.z + c.size.z / 2 - p.z)⟩ = reconCube c := by
  simp only [importCube, reconCube, getTextureLayout, rtDeg, Option.getD_some,
    ModelCube.mk.injEq, Option.some.injEq, Prod.mk.eta, and_true, true_and]
  constructor
  · refine Vec3.ext ?_ ?_ ?_ <;> (dsimp only; ring)
  · refine Vec3.ext ?_ ?_ ?_ <;> (dsimp only; ring)

end HyConv

namespace HyConv

theorem traverseList_cubeNodes (p : Vec3) (ts : ℝ × ℝ) (nm : String)
    (hbn : nm ≠ "") :
    ∀ (cubes : List ModelCube) (idx ctr : ℕ) (bs0 : List ModelBone)
      (b : ModelBone), b.name = nm → nm ∉ bs0.map (fun x => x.name) →
      traverseList (buildCubeNodes nm p ts cubes idx ctr).1 (some nm) p
          (bs0 ++ [b]) =
        bs0 ++ [{ b with cubes := b.cubes ++ cubes.map reconCube }] := by
  intro cubes
  induction cubes with
  | nil =>
    intro idx ctr bs0 b hb hdisj
    simp [buildCubeNodes, traverseList]
  | cons c rest ih =>
    intro idx ctr bs0 b hb hdisj
    simp only [buildCubeNodes, traverseList]
    rw [traverse_boxNode _ p bs0 b nm hb hbn hdisj rfl]
    dsimp only
    rw [importCube_reconCube c p ts]
    rw [ih (idx + 1) (ctr + 1) bs0 { b with cubes := b.cubes ++ [reconCube c] }
      hb hdisj]
    simp [List.append_assoc]

theorem traverseList_attNodes (p : Vec3) (nm : String) (hbn : nm ≠ "") :
    ∀ (atts : List AttachmentEntry) (ctr : ℕ) (bs0 : List ModelBone)
      (b : ModelBone) (acc : List AttachmentEntry), b.name = nm →
      b.attachments = some acc → nm ∉ bs0.map (fun x => x.name) →
      traverseList (buildAttNodes atts ctr).1 (some nm) p (bs0 ++ [b]) =
        bs0 ++ [{ b with attachments := some (acc ++ atts.map reconAtt) }] := by
  intro atts
  induction atts with
  | nil =>
    intro ctr bs0 b acc hb hacc hdisj
    simp only [buildAttNodes, traverseList, List.map_nil, List.append_nil, ← hacc]
  | cons a rest ih =>
    intro ctr bs0 b acc hb hacc hdisj
    rcases a with s | a0
    · simp only [buildAttNodes, traverseList]
      rw [traverse_pieceNode _ p bs0 b nm hb hbn hdisj (by simp) rfl]
      dsimp only
      rw [hacc, Option.getD_some]
      rw [ih (ctr + 1) bs0
        { b with attachments := some (acc ++ [AttachmentEntry.obj ⟨s, ⟨0, 0, 0⟩⟩]) }
        (acc ++ [AttachmentEntry.obj ⟨s, ⟨0, 0, 0⟩⟩]) hb rfl hdisj]
      dsimp only
      simp [reconAtt, List.append_assoc]
    · simp only [buildAttNodes, traverseList]
      rw [traverse_pieceNode _ p bs0 b nm hb hbn hdisj (by simp) rfl]
      dsimp only
      rw [hacc, Option.getD_some]
      rw [ih (ctr + 1) bs0
        { b with attachments := some (acc ++
          [AttachmentEntry.obj ⟨if a0.name = "" then "attachment" else a0.name,
            a0.position⟩]) }
        (acc ++ [AttachmentEntry.obj ⟨if a0.name = "" then "attachment" else a0.name,
          a0.position⟩]) hb rfl hdisj]
      dsimp only
      simp [reconAtt, List.append_assoc]

end HyConv

namespace HyConv

theorem traverseList_cubeAtt (nm : String) (hbn : nm ≠ "") (pid : Option String)
    (pvt : Vec3) (ts : ℝ × ℝ) (cubes : List ModelCube)
    (atts : List AttachmentEntry) (idx ctr ctr2 : ℕ) (bs0 : List ModelBone)
    (rotv : Vec3) (hdisj : nm ∉ bs0.map (fun x => x.name)) :
    traverseList ((buildCubeNodes nm pvt ts cubes idx ctr).1 ++
        (buildAttNodes atts ctr2).1) (some nm) pvt
      (bs0 ++ [{ name := nm, parent := pid, pivot := pvt
                 rotation := some (quaternionToEulerDeg
                   (eulerToQuaternion rotv.x rotv.y rotv.z))
                 cubes := [], attachments := some [] }]) =
      bs0 ++ [{ name := nm, parent := pid, pivot := pvt
                rotation := some (rtDeg rotv)
                cubes := cubes.map reconCube
                attachments := some (atts.map reconAtt) }] := by
  rw [traverseList_append]
  rw [traverseList_cubeNodes pvt ts nm hbn cubes idx ctr bs0
    { name := nm, parent := pid, pivot := pvt
      rotation := some (quaternionToEulerDeg
        (eulerToQuaternion rotv.x rotv.y rotv.z))
      cubes := [], attachments := some [] } rfl hdisj]
  rw [traverseList_attNodes pvt nm hbn atts ctr2 bs0
    { name := nm, parent := pid, pivot := pvt
      rotation := some (quaternionToEulerDeg
        (eulerToQuaternion rotv.x rotv.y rotv.z))
      cubes := [] ++ cubes.map reconCube, attachments := some [] }
    [] rfl rfl hdisj]
  simp [rtDeg]

end HyConv

namespace HyConv

theorem traverseList_export (bones : List ModelBone) (ts : ℝ × ℝ)
    (h0 : ∀ b ∈ bones, b.name ≠ "") :
    ∀ F : ℕ, ∀ (pid : Option String) (pp : Vec3) (ctr : ℕ)
      (bs0 : List ModelBone),
      (collectNames bones F pid).Nodup →
      (∀ m ∈ collectNames bones F pid, m ∉ bs0.map (fun x => x.name)) →
      traverseList (buildHytaleNodeTree bones F pid pp ts ctr).1 pid pp bs0 =
        bs0 ++ expectedTree bones F pid := by
  intro F
  induction F with
  | zero =>
    intro pid pp ctr bs0 _ _
    simp [buildHytaleNodeTree, expectedTree, traverseList]
  | succ n ihn =>
    have listStep : ∀ (cur : List ModelBone), (∀ x ∈ cur, x ∈ bones) →
        ∀ (pid : Option String) (pp : Vec3) (ctr : ℕ) (bs0 : List ModelBone),
        (cur.flatMap fun b =>
          b.name :: collectNames bones n (some b.name)).Nodup →
        (∀ m ∈ cur.flatMap fun b =>
            b.name :: collectNames bones n (some b.name),
          m ∉ bs0.map (fun x => x.name)) →
        traverseList (buildBoneList bones n cur pp ts ctr).1 pid pp bs0 =
          bs0 ++ cur.flatMap fun b =>
            reconBone b pid :: expectedTree bones n (some b.name) := by
      intro cur
      induction cur with
      | nil =>
        intro _ pid pp ctr bs0 _ _
        simp [buildBoneList, traverseList]
      | cons b rest ih =>
        intro hsub pid pp ctr bs0 hnd hdisj
        have hbn : b.name ≠ "" := h0 b (hsub b (by simp))
        rw [List.flatMap_cons] at hnd hdisj
        obtain ⟨hnd1, hnd2, hdj⟩ := List.nodup_append.mp hnd
        obtain ⟨hnotin, hndc⟩ := List.nodup_cons.mp hnd1
        have hdb : b.name ∉ bs0.map (fun x => x.name) :=
          hdisj b.name (List.mem_append.mpr (Or.inl (List.mem_cons_self _ _)))
        have hdc : ∀ m ∈ collectNames bones n (some b.name),
            m ∉ bs0.map (fun x => x.name) := fun m hm =>
          hdisj m (List.mem_append.mpr (Or.inl (List.mem_cons_of_mem _ hm)))
        have hdr : ∀ m ∈ rest.flatMap (fun b =>
            b.name :: collectNames bones n (some b.name)),
            m ∉ bs0.map (fun x => x.name) := fun m hm =>
          hdisj m (List.mem_append.mpr (Or.inr hm))
        simp only [buildBoneList, traverseList]
        rw [traverse_boneNode _ pid pp bs0 (by simp) (by simp)]
        dsimp only
        have hpiv : (⟨pp.x + (b.pivot.x - pp.x), pp.y + (b.pivot.y - pp.y),
            pp.z + (b.pivot.z - pp.z)⟩ : Vec3) = b.pivot := by
          refine Vec3.ext ?_ ?_ ?_ <;> (dsimp only; ring)
        rw [hpiv]
        rw [traverseList_append]
        rw [traverseList_cubeAtt b.name hbn pid b.pivot ts b.cubes
          (b.attachments.getD []) 0 (ctr + 1) _ bs0
          (b.rotation.getD ⟨0, 0, 0⟩) hdb]
        have hclean :
            ({ name := b.name, parent := pid, pivot := b.pivot,
               rotation := some (rtDeg (b.rotation.getD ⟨0, 0, 0⟩)),
               cubes := b.cubes.map reconCube,
               attachments := some ((b.attachments.getD []).map reconAtt) } :
              ModelBone) = reconBone b pid := rfl
        rw [hclean]
        have hcond2 : ∀ m ∈ collectNames bones n (some b.name),
            m ∉ (bs0 ++ [reconBone b pid]).map (fun x => x.name) := by
          intro m hm hmem
          rw [List.map_append] at hmem
          rcases List.mem_append.mp hmem with h1 | h1
          · exact hdc m hm h1
          · have heq : m = b.name := by simpa [reconBone] using h1
            exact hnotin (heq ▸ hm)
        rw [ihn (some b.name) b.pivot _ (bs0 ++ [reconBone b pid]) hndc hcond2]
        have hsub2 : ∀ x ∈ rest, x ∈ bones := fun x hx =>
          hsub x (List.mem_cons_of_mem _ hx)
        have hcond3 : ∀ m ∈ rest.flatMap (fun b =>
            b.name :: collectNames bones n (some b.name)),
            m ∉ ((bs0 ++ [reconBone b pid]) ++
              expectedTree bones n (some b.name)).map (fun x => x.name) := by
          intro m hm hmem
          have hnotbc : m ∉ b.name :: collectNames bones n (some b.name) :=
            fun hin => hdj hin hm
          rw [List.map_append, List.map_append] at hmem
          rcases List.mem_append.mp hmem with h1 | h1
          · rcases List.mem_append.mp h1 with h2 | h2
            · exact hdr m hm h2
            · have heq : m = b.name := by simpa [reconBone] using h2
              exact hnotbc (heq ▸ List.mem_cons_self _ _)
          · rw [expectedTree_names] at h1
            exact hnotbc (List.mem_cons_of_mem _ h1)
        rw [ih hsub2 pid pp _
          ((bs0 ++ [reconBone b pid]) ++ expectedTree bones n (some b.name))
          hnd2 hcond3]
        simp [List.flatMap_cons, List.append_assoc]
    intro pid pp ctr bs0 hnd hdisj
    simp only [buildHytaleNodeTree, Nat.succ_ne_zero, if_false,
      Nat.add_sub_cancel]
    rw [dif_neg not_false]
    rw [listStep (bones.filter (belongsTo pid))
      (fun x hx => List.mem_of_mem_filter hx) pid pp ctr bs0
      (by simpa [collectNames] using hnd)
      (by simpa [collectNames] using hdisj)]
    simp [expectedTree]

end HyConv

namespace HyConv

theorem roundTrip_eq (bones : List ModelBone) (ts : ℝ × ℝ)
    (hwf : WellFormedForest bones) :
    roundTrip bones ts = expectedTree bones (bones.length + 1) none := by
  obtain ⟨hnodup, hempty, hcoll, hreach⟩ := hwf
  have h0 : ∀ b ∈ bones, b.name ≠ "" := by
    intro b hb he
    exact hempty (he ▸ List.mem_map.mpr ⟨b, hb, rfl⟩)
  show traverseList (buildHytaleNodeTree bones (bones.length + 1) none
    ⟨0, 0, 0⟩ ts 0).1 none ⟨0, 0, 0⟩ [] = _
  exact traverseList_export bones ts h0 (bones.length + 1) none ⟨0, 0, 0⟩ 0 []
    hcoll (by simp)

theorem expectedTree_mem (bones : List ModelBone) :
    ∀ (F : ℕ) (pid : Option String) (b' : ModelBone),
      b' ∈ expectedTree bones F pid →
      ∃ b pid2, b ∈ bones ∧ b' = reconBone b pid2 := by
  intro F
  induction F with
  | zero =>
    intro pid b' h
    simp [expectedTree] at h
  | succ n ih =>
    intro pid b' h
    simp only [expectedTree] at h
    rcases List.mem_flatMap.mp h with ⟨c, hc, hmem⟩
    rcases List.mem_cons.mp hmem with h1 | h1
    · exact ⟨c, pid, List.mem_of_mem_filter hc, h1⟩
    · exact ih (some c.name) b' h1

/-- C1 (amended): on a well-formed bone forest whose rotations all lie in
the principal `'ZYX'` Euler range away from the gimbal guard, the export
to the Hytale node tree followed by the import back reproduces every
bone exactly: same absolute pivot, same rotation (the default zero
rotation being materialized), and cubes with the same origins and sizes. -/
theorem claim_C1_amended (bones : List ModelBone) (ts : ℝ × ℝ)
    (hwf : WellFormedForest bones) (hrot : ∀ b ∈ bones, boneRotOK b) :
    ∀ b ∈ bones, ∃ b', getBone (roundTrip bones ts) b.name = some b' ∧
      b'.pivot = b.pivot ∧
      b'.rotation = some (b.rotation.getD ⟨0, 0, 0⟩) ∧
      b'.cubes.map (fun c => c.origin) = b.cubes.map (fun c => c.origin) ∧
      b'.cubes.map (fun c => c.size) = b.cubes.map (fun c => c.size) := by
  intro b hb
  obtain ⟨hnodup, hempty, hcoll, hreach⟩ := hwf
  rw [roundTrip_eq bones ts ⟨hnodup, hempty, hcoll, hreach⟩]
  have hname : b.name ∈ (expectedTree bones (bones.length + 1) none).map
      (fun x => x.name) := by
    rw [expectedTree_names]
    exact hreach b hb
  rcases List.mem_map.mp hname with ⟨b0, hb0mem, hb0name⟩
  have hsome : (getBone (expectedTree bones (bones.length + 1) none)
      b.name).isSome := by
    unfold getBone
    rw [List.find?_isSome]
    exact ⟨b0, hb0mem, by simp [hb0name]⟩
  rcases hfind : getBone (expectedTree bones (bones.length + 1) none) b.name
    with _ | b'
  · simp [hfind] at hsome
  · have hmem := List.mem_of_find?_eq_some hfind
    have hpred := List.find?_some hfind
    have hbname : b'.name = b.name := by simpa using hpred
    rcases expectedTree_mem bones _ _ _ hmem with ⟨c, pid2, hcmem, rfl⟩
    have hcname : c.name = b.name := by simpa [reconBone] using hbname
    have hcb : c = b :=
      List.inj_on_of_nodup_map hnodup hcmem hb hcname
    subst hcb
    have hc_rot := rtDeg_eq (c.rotation.getD ⟨0, 0, 0⟩) (hrot c hcmem)
    refine ⟨reconBone c pid2, rfl, ?_, ?_, ?_, ?_⟩
    · simp [reconBone]
    · simp [reconBone, hc_rot]
    · simp [reconBone, reconCube, List.map_map, Function.comp]
    · simp [reconBone, reconCube, List.map_map, Function.comp]

end HyConv

namespace HyConv

/-- C1 (counterexample): the one-bone model rotated `(0, 180, 0)` degrees
is well-formed and nondegenerate (no gimbal lock: `sin 180° = 0`), yet the
export/import round trip returns the bone with rotation `(180, 0, 180)`:
the x and y Euler components each differ from the input by 180 degrees,
far beyond the claimed 1e-2-degree tolerance. -/
theorem claim_C1_counterexample :
    WellFormedForest Ex.bonesY180 ∧
    Ex.boneY180.rotation = some ⟨0, 180, 0⟩ ∧
    roundTrip Ex.bonesY180 (64, 64) =
      [{ name := "root", parent := none, pivot := ⟨0, 0, 0⟩,
         rotation := some ⟨180, 0, 180⟩, cubes := [],
         attachments := some [] }] ∧
    (1 : ℝ) / 100 < |(180 : ℝ) - 0| ∧ (1 : ℝ) / 100 < |(0 : ℝ) - 180| := by
  have hq : eulerToQuaternion 0 180 0 = ⟨0, 1, 0, 0⟩ := by
    have h180 : degToRad 180 = Real.pi := by
      unfold degToRad
      field_simp
    have hz : degToRad 0 = 0 := by
      unfold degToRad
      ring
    simp only [eulerToQuaternion, h180, hz]
    norm_num [Real.cos_pi_div_two, Real.sin_pi_div_two]
  have hatan : atan2 0 (-1) = Real.pi := by
    unfold atan2
    norm_num [Real.arctan_zero]
  have hrd : radToDeg Real.pi = 180 := by
    unfold radToDeg
    field_simp
  have hrd0 : radToDeg 0 = 0 := by
    unfold radToDeg
    ring
  have hcl : clampR 0 (-1) 1 = 0 := by
    unfold clampR
    norm_num
  have he : quaternionToEulerDeg ⟨0, 1, 0, 0⟩ = ⟨180, 0, 180⟩ := by
    simp only [quaternionToEulerDeg, quaternionToEulerZYX]
    norm_num [hcl, Real.arcsin_zero, hatan, hrd, hrd0]
  have hd1 : decide (("root" : String) = "") = false := rfl
  have hd2 : decide ((none : Option String) = some "root") = false := rfl
  have hif : (("root" : String) = "") = False := by simp
  have hsh : (ShapeType.none = ShapeType.box) = False :=
    eq_false (by intro h; cases h)
  refine ⟨by decide, rfl, ?_, by norm_num, by norm_num⟩
  norm_num [roundTrip, exportNodes, convertHytaleToBedrock, Ex.bonesY180,
    Ex.boneY180, buildHytaleNodeTree, buildBoneList, buildCubeNodes,
    buildAttNodes, belongsTo, strTruthy, List.filter, hd1, hd2, hif, hsh,
    traverseList, traverse, hq, he]

end HyConv

namespace HyConv

theorem claim_C1_amended_witness :
    (WellFormedForest Ex.bonesChain ∧ ∀ b ∈ Ex.bonesChain, boneRotOK b) ∧
    ∃ b', getBone (roundTrip Ex.bonesChain (64, 64)) Ex.boneHead.name =
        some b' ∧
      b'.pivot = Ex.boneHead.pivot ∧
      b'.rotation = some (Ex.boneHead.rotation.getD ⟨0, 0, 0⟩) ∧
      b'.cubes.map (fun c => c.origin) =
        Ex.boneHead.cubes.map (fun c => c.origin) ∧
      b'.cubes.map (fun c => c.size) =
        Ex.boneHead.cubes.map (fun c => c.size) := by
  have hwf : WellFormedForest Ex.bonesChain := by decide
  have hzero : RotOK ⟨0, 0, 0⟩ := by
    unfold RotOK
    norm_num [degToRad]
  have hrot : ∀ b ∈ Ex.bonesChain, boneRotOK b := by
    intro b hb
    simp only [Ex.bonesChain, List.mem_cons, List.mem_singleton,
      List.not_mem_nil, or_false] at hb
    rcases hb with rfl | rfl | rfl
    · exact hzero
    · unfold boneRotOK RotOK Ex.bonePelvis
      norm_num [degToRad]
    · exact hzero
  exact ⟨⟨hwf, hrot⟩, claim_C1_amended Ex.bonesChain (64, 64) hwf hrot
    Ex.boneHead (by simp [Ex.bonesChain])⟩

end HyConv
